import Mathlib

/-!
Shallow embedding of the bearer-token authentication core of the
weather-server repository (src/weather_mcp/utils/auth.py,
src/weather_mcp/auth_proxy.py, src/weather_mcp/main.py), together with
theorems settling the specification claims about it.

Python strings are modelled as Lean String (a list of unicode scalars);
bytes as List Nat with entries below 256; Python dicts of JSON data as
insertion-ordered association lists with last-write-wins update, mirroring
dict assignment and dict.update.  The system clock (time.time()) and the
randomness source (secrets.token_hex) are passed as explicit arguments.
-/

/-- JSON values appearing in token payloads: the repository stores only
integers (iat, exp) and strings (jti, sub, caller data) in them. -/
inductive JVal : Type where
  | jint : Int → JVal
  | jstr : String → JVal
deriving DecidableEq, Repr

/-- A JSON object / Python dict, as an insertion-ordered association list. -/
abbrev JObj := List (String × JVal)

/-- Python dict assignment d[k] = v: overwrite in place if the key exists
(keeping its position, as Python dicts do), else append. -/
def dictSet (d : JObj) (k : String) (v : JVal) : JObj :=
  if d.any (fun kv => kv.1 = k) then
    d.map (fun kv => if kv.1 = k then (k, v) else kv)
  else
    d ++ [(k, v)]

/-- Python d.update(e): assign every entry of e into d, in order. -/
def dictUpdate (d e : JObj) : JObj :=
  e.foldl (fun acc kv => dictSet acc kv.1 kv.2) d

/-- Python d.get(k) / "k in d" lookup (first occurrence). -/
def dictGet (d : JObj) (k : String) : Option JVal :=
  (d.find? (fun kv => kv.1 = k)).map (fun kv => kv.2)

/-- Keys of an object, in order. -/
def dictKeys (d : JObj) : List String := d.map (fun kv => kv.1)

/-! SHA-256, as used by Python hashlib/hmac.  Words are Nat reduced mod 2^32. -/

def M32 : Nat := 4294967296

def rotr32 (x n : Nat) : Nat := (x / 2 ^ n + (x % 2 ^ n) * 2 ^ (32 - n)) % M32

def shaCh (x y z : Nat) : Nat := (x &&& y) ^^^ ((x ^^^ 4294967295) &&& z)

def shaMaj (x y z : Nat) : Nat := (x &&& y) ^^^ (x &&& z) ^^^ (y &&& z)

def bigSigma0 (x : Nat) : Nat := rotr32 x 2 ^^^ rotr32 x 13 ^^^ rotr32 x 22

def bigSigma1 (x : Nat) : Nat := rotr32 x 6 ^^^ rotr32 x 11 ^^^ rotr32 x 25

def smallSigma0 (x : Nat) : Nat := rotr32 x 7 ^^^ rotr32 x 18 ^^^ (x >>> 3)

def smallSigma1 (x : Nat) : Nat := rotr32 x 17 ^^^ rotr32 x 19 ^^^ (x >>> 10)

/-- The 64 SHA-256 round constants (fractional parts of cube roots of the
first 64 primes). -/
def shaK : List Nat :=
  [1116352408, 1899447441, 3049323471, 3921009573, 961987163, 1508970993,
   2453635748, 2870763221, 3624381080, 310598401, 607225278, 1426881987,
   1925078388, 2162078206, 2614888103, 3248222580, 3835390401, 4022224774,
   264347078, 604807628, 770255983, 1249150122, 1555081692, 1996064986,
   2554220882, 2821834349, 2952996808, 3210313671, 3336571891, 3584528711,
   113926993, 338241895, 666307205, 773529912, 1294757372, 1396182291,
   1695183700, 1986661051, 2177026350, 2456956037, 2730485921, 2820302411,
   3259730800, 3345764771, 3516065817, 3600352804, 4094571909, 275423344,
   430227734, 506948616, 659060556, 883997877, 958139571, 1322822218,
   1537002063, 1747873779, 1955562222, 2024104815, 2227730452, 2361852424,
   2428436474, 2756734187, 3204031479, 3329325298]

/-- Initial SHA-256 hash state. -/
def shaH0 : List Nat :=
  [1779033703, 3144134277, 1013904242, 2773480762, 1359893119, 2600822924,
   528734635, 1541459225]

/-- Big-endian interpretation of a list of bytes as one Nat. -/
def beToNat (bs : List Nat) : Nat := bs.foldl (fun a b => a * 256 + b) 0

/-- Big-endian byte expansion of n to the given width. -/
def natToBe (width n : Nat) : List Nat :=
  (List.range width).map (fun i => n / 256 ^ (width - 1 - i) % 256)

/-- Split a list into chunks of size k (k > 0 on every use site). -/
def chunks (k : Nat) (l : List Nat) : List (List Nat) :=
  if h : l = [] ∨ k = 0 then [] else (l.take k) :: chunks k (l.drop k)
termination_by l.length
decreasing_by
  simp only [not_or] at h
  have : l.length ≠ 0 := fun hl => h.1 (List.eq_nil_of_length_eq_zero hl)
  simp [List.length_drop]
  omega

/-- SHA-256 padding of a byte message. -/
def shaPad (msg : List Nat) : List Nat :=
  msg ++ [128] ++ List.replicate ((64 - (msg.length + 9) % 64) % 64) 0
      ++ natToBe 8 (msg.length * 8)

/-- Message schedule: extend the 16 block words to 64. -/
def shaExtend (ws : List Nat) (rounds : Nat) : List Nat :=
  match rounds with
  | 0 => ws
  | r + 1 =>
    let n := ws.length
    let w := (smallSigma1 (ws.getD (n - 2) 0) + ws.getD (n - 7) 0
              + smallSigma0 (ws.getD (n - 15) 0) + ws.getD (n - 16) 0) % M32
    shaExtend (ws ++ [w]) r

/-- One round of the SHA-256 compression function. -/
def shaRound (st : List Nat) (kw : Nat × Nat) : List Nat :=
  match st with
  | [a, b, c, d, e, f, g, h] =>
    let t1 := (h + bigSigma1 e + shaCh e f g + kw.1 + kw.2) % M32
    let t2 := (bigSigma0 a + shaMaj a b c) % M32
    [(t1 + t2) % M32, a, b, c, (d + t1) % M32, e, f, g]
  | _ => st

/-- Process one 64-byte block. -/
def shaBlock (st : List Nat) (block : List Nat) : List Nat :=
  let ws := shaExtend ((chunks 4 block).map beToNat) 48
  let st2 := (shaK.zip ws |>.map (fun p => (p.1, p.2))).foldl
      (fun s kw => shaRound s kw) st
  (st.zip st2).map (fun p => (p.1 + p.2) % M32)

/-- SHA-256 of a byte message, as 32 bytes. -/
def sha256 (msg : List Nat) : List Nat :=
  let final := (chunks 64 (shaPad msg)).foldl shaBlock shaH0
  final.flatMap (natToBe 4)

/-- HMAC-SHA256 (RFC 2104), as Python hmac.new(key, msg, sha256).digest(). -/
def hmacSha256 (key msg : List Nat) : List Nat :=
  let k0 := if key.length > 64 then sha256 key else key
  let kp := k0 ++ List.replicate (64 - k0.length) 0
  let ipad := kp.map (fun b => b ^^^ 54)
  let opad := kp.map (fun b => b ^^^ 92)
  sha256 (opad ++ sha256 (ipad ++ msg))

/-! UTF-8, as used by str.encode('utf-8') and the utf-8 reading in
json.loads of bytes. -/

/-- UTF-8 encoding of one unicode scalar value. -/
def utf8EncodeChar (c : Char) : List Nat :=
  let n := c.toNat
  if n < 128 then [n]
  else if n < 2048 then [192 + n / 64, 128 + n % 64]
  else if n < 65536 then [224 + n / 4096, 128 + n / 64 % 64, 128 + n % 64]
  else [240 + n / 262144, 128 + n / 4096 % 64, 128 + n / 64 % 64, 128 + n % 64]

/-- UTF-8 encoding of a string, modelling s.encode('utf-8'). -/
def strEncode (s : String) : List Nat := s.data.flatMap utf8EncodeChar

/-- Decoding of one multi-byte UTF-8 sequence with lead byte b (192 or
more): the scalar value and the remaining bytes, or None when the
continuation bytes are missing or malformed. -/
def utf8Lead (b : Nat) (rest : List Nat) : Option (Nat × List Nat) :=
  if b < 224 then
    match rest with
    | b2 :: rest2 =>
      if 128 ≤ b2 ∧ b2 < 192 then some ((b - 192) * 64 + (b2 - 128), rest2) else none
    | _ => none
  else if b < 240 then
    match rest with
    | b2 :: b3 :: rest3 =>
      if (128 ≤ b2 ∧ b2 < 192) ∧ (128 ≤ b3 ∧ b3 < 192) then
        some ((b - 224) * 4096 + (b2 - 128) * 64 + (b3 - 128), rest3)
      else none
    | _ => none
  else
    match rest with
    | b2 :: b3 :: b4 :: rest4 =>
      if (128 ≤ b2 ∧ b2 < 192) ∧ (128 ≤ b3 ∧ b3 < 192) ∧ (128 ≤ b4 ∧ b4 < 192) then
        some ((b - 240) * 262144 + (b2 - 128) * 4096 + (b3 - 128) * 64 + (b4 - 128), rest4)
      else none
    | _ => none

/-- UTF-8 decoding of a byte list to unicode scalar values. -/
def utf8DecodePoints : List Nat → Option (List Nat)
  | [] => some []
  | b :: rest =>
    if b < 128 then (utf8DecodePoints rest).map (fun t => b :: t)
    else if b < 192 then none
    else
      match hLead : utf8Lead b rest with
      | none => none
      | some (v, rest2) => (utf8DecodePoints rest2).map (fun t => v :: t)
termination_by bs => bs.length
decreasing_by
  · simp
  · unfold utf8Lead at hLead
    repeat' split at hLead
    all_goals simp_all
    all_goals omega

/-- Turn a scalar value into a Char when it is a valid one. -/
def charOfNat? (n : Nat) : Option Char :=
  if n.isValidChar then some (Char.ofNat n) else none

/-- UTF-8 decoding of bytes to a string, modelling bytes.decode('utf-8'). -/
def strDecode (bs : List Nat) : Option String :=
  (utf8DecodePoints bs).bind (fun ns => (ns.mapM charOfNat?).map String.mk)

/-! Base64url, as used via base64.urlsafe_b64encode / urlsafe_b64decode. -/

/-- The base64url alphabet character for a 6-bit value. -/
def b64Char (n : Nat) : Char :=
  if n < 26 then Char.ofNat (65 + n)
  else if n < 52 then Char.ofNat (71 + n)
  else if n < 62 then Char.ofNat (n - 4)
  else if n = 62 then '-' else '_'

/-- Membership in the base64url alphabet. -/
def isB64Char (c : Char) : Bool :=
  (65 ≤ c.toNat && c.toNat ≤ 90) || (97 ≤ c.toNat && c.toNat ≤ 122) ||
  (48 ≤ c.toNat && c.toNat ≤ 57) || c = '-' || c = '_'

/-- The 6-bit value of a base64url alphabet character. -/
def b64Val (c : Char) : Nat :=
  let n := c.toNat
  if 65 ≤ n && n ≤ 90 then n - 65
  else if 97 ≤ n && n ≤ 122 then n - 71
  else if 48 ≤ n && n ≤ 57 then n + 4
  else if c = '-' then 62 else 63

/-- Base64 encoding of a byte list, including '=' padding. -/
def b64EncodeBytes : List Nat → List Char
  | x :: y :: z :: rest =>
    b64Char (x / 4) :: b64Char ((x % 4) * 16 + y / 16) ::
    b64Char ((y % 16) * 4 + z / 64) :: b64Char (z % 64) :: b64EncodeBytes rest
  | [x, y] => [b64Char (x / 4), b64Char ((x % 4) * 16 + y / 16), b64Char ((y % 16) * 4), '=']
  | [x] => [b64Char (x / 4), b64Char ((x % 4) * 16), '=', '=']
  | [] => []

/-- Python base64.urlsafe_b64encode(bs).decode('utf-8'). -/
def urlsafe_b64encode (bs : List Nat) : String := String.mk (b64EncodeBytes bs)

/-- Python str.rstrip('='). -/
def rstripEq (s : String) : String :=
  String.mk ((s.data.reverse.dropWhile (fun c => c = '=')).reverse)

/-- Decode base64 character values in groups of four; a trailing group of
one character is invalid padding, groups of two or three yield the bytes
they determine (as binascii does). -/
def decodeQuads : List Nat → Option (List Nat)
  | [] => some []
  | [_] => none
  | [a, b] => some [a * 4 + b / 16]
  | [a, b, c] => some [a * 4 + b / 16, (b % 16) * 16 + c / 4]
  | a :: b :: c :: d :: rest =>
    (decodeQuads rest).map
      (fun t => (a * 4 + b / 16) :: ((b % 16) * 16 + c / 4) :: ((c % 4) * 64 + d) :: t)

/-- Python base64.urlsafe_b64decode: characters outside the alphabet are
discarded, data stops at the first '=', groups of four are decoded. -/
def urlsafe_b64decode (s : String) : Option (List Nat) :=
  let cs := s.data.filter (fun c => isB64Char c || c = '=')
  let ds := cs.takeWhile (fun c => c ≠ '=')
  decodeQuads (ds.map b64Val)

/-! JSON serialization and parsing, as used via json.dumps / json.loads.
The repository's payloads are flat JSON objects whose values are integers
and strings, which is the domain modelled here; a non-object payload is
modelled as a parse failure. -/

/-- Escaping of '"' and backslash inside a JSON string literal. -/
def jsonEscape : List Char → List Char
  | [] => []
  | c :: cs => if c = '"' || c = '\\' then '\\' :: c :: jsonEscape cs else c :: jsonEscape cs

/-- A JSON string literal. -/
def dumpStr (s : String) : List Char := '"' :: (jsonEscape s.data ++ ['"'])

/-- Decimal digits of a natural number. -/
def dumpNat (n : Nat) : List Char :=
  if n = 0 then ['0'] else (Nat.digits 10 n).reverse.map Nat.digitChar

/-- Decimal rendering of an integer. -/
def dumpInt (i : Int) : List Char :=
  if i < 0 then '-' :: dumpNat i.natAbs else dumpNat i.natAbs

/-- Rendering of one JSON value. -/
def dumpVal : JVal → List Char
  | .jint i => dumpInt i
  | .jstr s => dumpStr s

/-- Rendering of one key/value entry, with the ": " separator json.dumps uses. -/
def dumpEntry (kv : String × JVal) : List Char :=
  dumpStr kv.1 ++ (':' :: ' ' :: dumpVal kv.2)

/-- Join rendered entries with the ", " separator of str.join. -/
def joinEntries : List (List Char) → List Char
  | [] => []
  | [e] => e
  | e :: rest => e ++ ',' :: ' ' :: joinEntries rest

/-- Python json.dumps of a flat object, with the default ", " and ": "
separators. -/
def dumps (o : JObj) : String :=
  String.mk ('{' :: (joinEntries (o.map dumpEntry) ++ ['}']))

/-- JSON whitespace. -/
def isJsonWs (c : Char) : Bool := c = ' ' || c = '\t' || c = '\n' || c = '\r'

/-- Drop leading JSON whitespace. -/
def skipWs (cs : List Char) : List Char := cs.dropWhile isJsonWs

/-- Parse the body of a string literal after the opening '"', returning the
content and the remainder after the closing '"'. -/
def parseStrBody : List Char → Option (List Char × List Char)
  | [] => none
  | c :: rest =>
    if c = '"' then some ([], rest)
    else if c = '\\' then
      match rest with
      | [] => none
      | e :: rest2 =>
        if e = '"' || e = '\\' then
          (parseStrBody rest2).map (fun p => (e :: p.1, p.2))
        else none
    else (parseStrBody rest).map (fun p => (c :: p.1, p.2))
termination_by cs => cs.length
decreasing_by
  all_goals simp_all
  all_goals omega

/-- Value of a list of decimal digit characters. -/
def digitsVal (ds : List Char) : Nat := ds.foldl (fun a c => a * 10 + (c.toNat - 48)) 0

/-- Parse a nonempty run of decimal digits. -/
def parseDigits (cs : List Char) : Option (Nat × List Char) :=
  let ds := cs.takeWhile Char.isDigit
  if ds.isEmpty then none else some (digitsVal ds, cs.dropWhile Char.isDigit)

/-- Parse an optionally negated integer literal. -/
def parseIntTok (cs : List Char) : Option (Int × List Char) :=
  match cs with
  | [] => none
  | c :: rest =>
    if c = '-' then (parseDigits rest).map (fun p => (-(p.1 : Int), p.2))
    else (parseDigits (c :: rest)).map (fun p => ((p.1 : Int), p.2))

/-- Parse one JSON value (string or integer). -/
def parseJVal (cs : List Char) : Option (JVal × List Char) :=
  match cs with
  | [] => none
  | c :: rest =>
    if c = '"' then (parseStrBody rest).map (fun p => (JVal.jstr (String.mk p.1), p.2))
    else (parseIntTok (c :: rest)).map (fun p => (JVal.jint p.1, p.2))

/-- Continuation after one key/value entry: a comma continues with the
recursive entry parser, a closing brace ends the object. -/
def parseAfterVal (recur : List Char → Option (JObj × List Char))
    (k : List Char) (v : JVal) (r4 : List Char) : Option (JObj × List Char) :=
  match skipWs r4 with
  | [] => none
  | c3 :: r6 =>
    if c3 = ',' then (recur r6).map (fun p => ((String.mk k, v) :: p.1, p.2))
    else if c3 = '}' then some ([(String.mk k, v)], r6)
    else none

/-- Continuation after an entry key: a colon, then the value. -/
def parseAfterKey (recur : List Char → Option (JObj × List Char))
    (k : List Char) (r1 : List Char) : Option (JObj × List Char) :=
  match skipWs r1 with
  | [] => none
  | c2 :: r3 =>
    if c2 ≠ ':' then none
    else
      match parseJVal (skipWs r3) with
      | none => none
      | some (v, r4) => parseAfterVal recur k v r4

/-- Parse the entries of a nonempty object after its opening brace,
consuming the closing brace. -/
def parseEntries (fuel : Nat) (cs : List Char) : Option (JObj × List Char) :=
  match fuel with
  | 0 => none
  | fuel + 1 =>
    match skipWs cs with
    | [] => none
    | c :: rest =>
      if c ≠ '"' then none
      else
        match parseStrBody rest with
        | none => none
        | some (k, r1) => parseAfterKey (parseEntries fuel) k r1

/-- Build a Python dict from parsed entries (later duplicates win, as in
json.loads). -/
def dictOfEntries (es : JObj) : JObj := es.foldl (fun d kv => dictSet d kv.1 kv.2) []

/-- Python json.loads restricted to flat objects of integers and strings. -/
def loads (s : String) : Option JObj :=
  match skipWs s.data with
  | [] => none
  | c :: rest =>
    if c ≠ '{' then none
    else
      match skipWs rest with
      | [] => none
      | c2 :: r2 =>
        if c2 = '}' then (if (skipWs r2).isEmpty then some [] else none)
        else
          match parseEntries ((c2 :: r2).length + 1) (c2 :: r2) with
          | some (es, r3) => if (skipWs r3).isEmpty then some (dictOfEntries es) else none
          | none => none

/-! The functions of src/weather_mcp/utils/auth.py.  time.time() and the
secrets module are explicit arguments (now, rand16). -/

/-- Python secrets.token_hex applied to the given bytes: lowercase hex,
two characters per byte. -/
def token_hex (bs : List Nat) : String :=
  String.mk (bs.flatMap (fun b => [Nat.digitChar (b / 16 % 16), Nat.digitChar (b % 16)]))

/-- Base64url without padding: encode then rstrip '='. -/
def b64NoPad (bs : List Nat) : String := rstripEq (urlsafe_b64encode bs)

/-- The signature segment: base64url-nopad of HMAC-SHA256 over the utf-8
bytes of the payload segment, keyed by the utf-8 bytes of the secret. -/
def signPayload (secret_key payload_b64 : String) : String :=
  b64NoPad (hmacSha256 (strEncode secret_key) (strEncode payload_b64))

/-- The payload dict built by generate_token: iat and jti first, then sub
if user_id is truthy, exp if expiry_seconds is truthy, then
payload.update(additional_data) if that is truthy. -/
def tokenPayload (user_id : Option String) (expiry_seconds : Option Int)
    (additional_data : Option JObj) (now : Nat) (rand16 : List Nat) : JObj :=
  let payload : JObj := [("iat", .jint now), ("jti", .jstr (token_hex rand16))]
  let payload := match user_id with
    | some uid => if uid ≠ "" then dictSet payload "sub" (.jstr uid) else payload
    | none => payload
  let payload := match expiry_seconds with
    | some e => if e ≠ 0 then dictSet payload "exp" (.jint ((now : Int) + e)) else payload
    | none => payload
  match additional_data with
  | some ad => if ad ≠ [] then dictUpdate payload ad else payload
  | none => payload

/-- generate_token of utils/auth.py. -/
def generate_token (secret_key : String) (user_id : Option String)
    (expiry_seconds : Option Int) (additional_data : Option JObj)
    (now : Nat) (rand16 : List Nat) : Except String String :=
  if secret_key = "" then .error "Secret key cannot be empty"
  else
    let payload := tokenPayload user_id expiry_seconds additional_data now rand16
    let payload_b64 := b64NoPad (strEncode (dumps payload))
    let signature_b64 := signPayload secret_key payload_b64
    .ok (payload_b64 ++ "." ++ signature_b64)

/-- Python str.split('.'). -/
def pySplitDot (cs : List Char) : List (List Char) :=
  cs.foldr
    (fun c acc =>
      if c = '.' then [] :: acc
      else
        match acc with
        | a :: rest => (c :: a) :: rest
        | [] => [[c]])
    [[]]

/-- The payload-decoding step of validate_token: restore '=' padding the
way the source computes it, base64url-decode, utf-8-decode, json-parse;
any failure is None (the enclosing except of the source). -/
def decodePayload (payload_b64 : String) : Option JObj :=
  let padding := String.mk (List.replicate (4 - payload_b64.length % 4) '=')
  match urlsafe_b64decode (payload_b64 ++ padding) with
  | none => none
  | some payload_bytes => (strDecode payload_bytes).bind loads

/-- validate_token of utils/auth.py.  A None secret passed by the callers
behaves like the empty string (both are falsy), and hmac.compare_digest on
the two ascii signature segments is equality.  The TypeError Python raises
when a non-numeric exp is compared with the clock is caught by the
enclosing except and becomes (False, None), which the jstr branch mirrors. -/
def validate_token (token secret_key : String) (now : Nat) : Bool × Option JObj :=
  if token = "" ∨ secret_key = "" then (false, none)
  else
    match pySplitDot token.data with
    | [payload_chars, signature_chars] =>
      let payload_b64 := String.mk payload_chars
      let expected := signPayload secret_key payload_b64
      if String.mk signature_chars ≠ expected then (false, none)
      else
        match decodePayload payload_b64 with
        | none => (false, none)
        | some payload =>
          match dictGet payload "exp" with
          | some (.jint e) => if e < (now : Int) then (false, none) else (true, some payload)
          | some (.jstr _) => (false, none)
          | none => (true, some payload)
    | _ => (false, none)

/-- Python str.replace(pat, repl) with a nonempty pattern: every
non-overlapping occurrence is replaced, scanning left to right.  The fuel
argument (the input length at the top call) only makes the recursion
structural; it never runs out, since every step consumes at least one
character. -/
def pyReplaceFuel : Nat → List Char → List Char → List Char → List Char
  | 0, _, _, _ => []
  | _ + 1, [], _, _ => []
  | fuel + 1, c :: cs, pat, repl =>
    if pat ≠ [] ∧ pat.isPrefixOf (c :: cs) then
      repl ++ pyReplaceFuel fuel ((c :: cs).drop pat.length) pat repl
    else c :: pyReplaceFuel fuel cs pat repl

/-- Python str.replace(pat, repl) with every occurrence replaced. -/
def pyReplace (s pat repl : List Char) : List Char := pyReplaceFuel s.length s pat repl

/-- Python str.replace(pat, repl, 1): only the first occurrence. -/
def pyReplaceOnce (s pat repl : List Char) : List Char :=
  match s with
  | [] => []
  | c :: cs =>
    if pat ≠ [] ∧ pat.isPrefixOf (c :: cs) then repl ++ (c :: cs).drop pat.length
    else c :: pyReplaceOnce cs pat repl

/-- extract_token_from_header of utils/auth.py: None or a non-"Bearer "
header yields None, otherwise str.replace removes every occurrence of
"Bearer ". -/
def extract_token_from_header (auth_header : Option String) : Option String :=
  match auth_header with
  | none => none
  | some h =>
    if h = "" ∨ ¬ ("Bearer ".data.isPrefixOf h.data) then none
    else some (String.mk (pyReplace h.data "Bearer ".data []))

/-- Case-insensitive header lookup, as the framework header mappings the
duck-typed get_token_from_request reads provide. -/
def headersGet (hs : List (String × String)) (name : String) : Option String :=
  (hs.find? (fun kv => kv.1.data.map Char.toLower = name.data.map Char.toLower)).map
    (fun kv => kv.2)

/-- A request as the gate sees it: a path and a header mapping. -/
structure Request where
  path : String
  headers : List (String × String)
deriving DecidableEq, Repr

/-- get_token_from_request of utils/auth.py: look up the Authorization
header and extract the bearer token from it. -/
def get_token_from_request (req : Request) : Option String :=
  extract_token_from_header (headersGet req.headers "Authorization")

/-- Outcome of the auth_proxy authenticate dependency: allow, or an
HTTPException with a status code and detail message. -/
inductive AuthResult : Type where
  | allow : AuthResult
  | deny : Nat → String → AuthResult
deriving DecidableEq, Repr

/-- authenticate of auth_proxy.py.  auth_secret_key set to "" models the
unset/empty secret (None and "" are both falsy in validate_token). -/
def authenticate (auth_enabled : Bool) (auth_secret_key : String)
    (req : Request) (now : Nat) : AuthResult :=
  if ¬ auth_enabled then .allow
  else if req.path = "/mcp/info" then .allow
  else
    let token := (get_token_from_request req).getD ""
    if token = "" then .deny 401 "Unauthorized: Missing Bearer Token"
    else
      let token :=
        if "Bearer ".data.isPrefixOf token.data then
          String.mk (pyReplaceOnce token.data "Bearer ".data [])
        else token
      if (validate_token token auth_secret_key now).1 then .allow
      else .deny 401 "Unauthorized: Invalid Bearer Token"

/-- authenticate_request of main.py: (is_authenticated, optional error
response of status code and error message). -/
def authenticate_request (auth_enabled : Bool) (auth_secret_key : String)
    (req : Request) (now : Nat) : Bool × Option (Nat × String) :=
  if ¬ auth_enabled then (true, none)
  else if req.path = "/mcp/info" then (true, none)
  else
    let token := (get_token_from_request req).getD ""
    if token = "" then (false, some (401, "Unauthorized: Missing Bearer Token"))
    else if (validate_token token auth_secret_key now).1 then (true, none)
    else (false, some (401, "Unauthorized: Invalid Bearer Token"))

/-- The data characters of the base64 encoding, without '=' padding:
what rstrip('=') leaves of b64EncodeBytes. -/
def b64EncodeNoPad : List Nat → List Char
  | x :: y :: z :: rest =>
    b64Char (x / 4) :: b64Char ((x % 4) * 16 + y / 16) ::
    b64Char ((y % 16) * 4 + z / 64) :: b64Char (z % 64) :: b64EncodeNoPad rest
  | [x, y] => [b64Char (x / 4), b64Char ((x % 4) * 16 + y / 16), b64Char ((y % 16) * 4)]
  | [x] => [b64Char (x / 4), b64Char ((x % 4) * 16)]
  | [] => []

/-! Helper lemmas: dict operations. -/

theorem dictGet_dictSet (d : JObj) (k k' : String) (v : JVal) :
    dictGet (dictSet d k v) k' = if k' = k then some v else dictGet d k' := by
  by_cases hk : k' = k
  · subst hk
    rw [if_pos rfl]
    unfold dictSet dictGet
    by_cases hany : d.any (fun kv => kv.1 = k')
    · rw [if_pos hany, List.find?_map]
      have hfn : ((fun kv : String × JVal => decide (kv.1 = k')) ∘
          (fun kv => if kv.1 = k' then (k', v) else kv)) =
          (fun kv : String × JVal => decide (kv.1 = k')) := by
        funext kv
        by_cases h : kv.1 = k' <;> simp [h]
      rw [hfn]
      obtain ⟨kv0, hmem, hp⟩ := List.any_eq_true.mp hany
      have hsome : (d.find? (fun kv => kv.1 = k')).isSome :=
        List.find?_isSome.mpr ⟨kv0, hmem, hp⟩
      obtain ⟨kv1, hfind⟩ := Option.isSome_iff_exists.mp hsome
      have hkv1 : kv1.1 = k' := by simpa using List.find?_some hfind
      rw [hfind]
      simp [Function.comp, hkv1]
    · rw [if_neg hany, List.find?_append]
      simp only [Bool.not_eq_true] at hany
      have hnone : d.find? (fun kv => kv.1 = k') = none := by
        rw [List.find?_eq_none]
        intro x hx
        exact List.any_eq_false.mp hany x hx
      rw [hnone]
      simp [List.find?]
  · rw [if_neg hk]
    unfold dictSet dictGet
    by_cases hany : d.any (fun kv => kv.1 = k)
    · rw [if_pos hany, List.find?_map]
      have hfn : ((fun kv : String × JVal => decide (kv.1 = k')) ∘
          (fun kv => if kv.1 = k then (k, v) else kv)) =
          (fun kv : String × JVal => decide (kv.1 = k')) := by
        funext kv
        by_cases h : kv.1 = k <;> simp [h]
      rw [hfn]
      rcases hfd : d.find? (fun kv => kv.1 = k') with _ | kv1
      · rw [hfd]
        simp
      · have hkv1 : kv1.1 = k' := by simpa using List.find?_some hfd
        have hne : ¬ kv1.1 = k := by rw [hkv1]; exact hk
        rw [hfd]
        simp [Function.comp, hne]
    · rw [if_neg hany, List.find?_append]
      have h2 : List.find? (fun kv : String × JVal => kv.1 = k') [(k, v)] = none := by
        have hdec : decide (k = k') = false :=
          decide_eq_false (fun h => hk h.symm)
        simp [List.find?, hdec]
      rw [h2]
      simp

theorem dictGet_dictUpdate_notMem (d e : JObj) (k : String)
    (h : k ∉ dictKeys e) : dictGet (dictUpdate d e) k = dictGet d k := by
  induction e generalizing d with
  | nil => rfl
  | cons kv e ih =>
    have hne : k ≠ kv.1 := by
      intro hkk
      exact h (by simp [dictKeys, hkk])
    have htail : k ∉ dictKeys e := by
      intro hmem
      exact h (by simp [dictKeys] at hmem ⊢; exact Or.inr hmem)
    calc dictGet (dictUpdate (dictSet d kv.1 kv.2) e) k
        = dictGet (dictSet d kv.1 kv.2) k := ih _ htail
      _ = dictGet d k := by rw [dictGet_dictSet, if_neg hne]


theorem dictGet_dictUpdate_mem (d e : JObj) (k : String) (v : JVal)
    (hnd : (dictKeys e).Nodup) (hmem : (k, v) ∈ e) :
    dictGet (dictUpdate d e) k = some v := by
  induction e generalizing d with
  | nil => simp at hmem
  | cons kv e ih =>
    rw [List.mem_cons] at hmem
    have hnd1 : kv.1 ∉ dictKeys e ∧ (dictKeys e).Nodup := by
      unfold dictKeys at hnd ⊢
      rw [List.map_cons] at hnd
      exact List.nodup_cons.mp hnd
    rw [dictUpdate, List.foldl_cons]
    rcases hmem with hmem | hmem
    · have hk1 : kv.1 = k := by rw [← hmem]
      have hv1 : kv.2 = v := by rw [← hmem]
      have hnot : k ∉ dictKeys e := hk1 ▸ hnd1.1
      have hstep : dictGet (dictUpdate (dictSet d kv.1 kv.2) e) k
          = dictGet (dictSet d kv.1 kv.2) k := dictGet_dictUpdate_notMem _ _ _ hnot
      rw [show (List.foldl (fun acc kv => dictSet acc kv.1 kv.2) (dictSet d kv.1 kv.2) e)
            = dictUpdate (dictSet d kv.1 kv.2) e from rfl]
      rw [hstep, dictGet_dictSet, hk1, if_pos rfl, hv1]
    · rw [show (List.foldl (fun acc kv => dictSet acc kv.1 kv.2) (dictSet d kv.1 kv.2) e)
            = dictUpdate (dictSet d kv.1 kv.2) e from rfl]
      exact ih _ hnd1.2 hmem

theorem dictKeys_dictSet_nodup (d : JObj) (k : String) (v : JVal)
    (h : (dictKeys d).Nodup) : (dictKeys (dictSet d k v)).Nodup := by
  unfold dictSet
  by_cases hany : d.any (fun kv => kv.1 = k)
  · rw [if_pos hany]
    have heq : dictKeys (d.map (fun kv => if kv.1 = k then (k, v) else kv)) = dictKeys d := by
      unfold dictKeys
      rw [List.map_map]
      apply List.map_congr_left
      intro kv _
      by_cases hkv : kv.1 = k <;> simp [hkv]
    rw [heq]
    exact h
  · rw [if_neg hany]
    simp only [Bool.not_eq_true] at hany
    have hnot : k ∉ dictKeys d := by
      intro hmem
      obtain ⟨kv, hkv, hk⟩ := List.mem_map.mp hmem
      have := List.any_eq_false.mp hany kv hkv
      rw [decide_eq_true_eq] at this
      exact this hk
    unfold dictKeys at *
    rw [List.map_append, List.nodup_append]
    refine ⟨h, by simp, ?_⟩
    intro a ha hb
    simp only [List.map_cons, List.map_nil, List.mem_singleton] at hb
    subst hb
    exact hnot ha

theorem dictKeys_dictUpdate_nodup (d e : JObj)
    (h : (dictKeys d).Nodup) : (dictKeys (dictUpdate d e)).Nodup := by
  induction e generalizing d with
  | nil => exact h
  | cons kv e ih =>
    rw [dictUpdate, List.foldl_cons]
    exact ih _ (dictKeys_dictSet_nodup _ _ _ h)

theorem dictSet_append_of_notMem (d : JObj) (k : String) (v : JVal)
    (h : k ∉ dictKeys d) : dictSet d k v = d ++ [(k, v)] := by
  unfold dictSet
  rw [if_neg]
  rw [Bool.not_eq_true, List.any_eq_false]
  intro kv hkv
  rw [decide_eq_true_eq]
  intro he
  exact h (List.mem_map.mpr ⟨kv, hkv, he⟩)

theorem foldl_dictSet_append (es : JObj) : ∀ d : JObj,
    (dictKeys (d ++ es)).Nodup →
    es.foldl (fun acc kv => dictSet acc kv.1 kv.2) d = d ++ es := by
  induction es with
  | nil =>
    intro d _
    simp
  | cons kv es ih =>
    intro d hnd
    have hkeys : dictKeys (d ++ kv :: es) = dictKeys d ++ kv.1 :: dictKeys es := by
      unfold dictKeys
      simp
    have hnotd : kv.1 ∉ dictKeys d := by
      rw [hkeys, List.nodup_append] at hnd
      intro hmem
      exact hnd.2.2 hmem (by simp)
    rw [List.foldl_cons, dictSet_append_of_notMem d kv.1 kv.2 hnotd]
    have hassoc : (d ++ [(kv.1, kv.2)]) ++ es = d ++ kv :: es := by simp
    have hres := ih (d ++ [(kv.1, kv.2)]) (by rw [hassoc]; exact hnd)
    rw [hres, hassoc]

theorem dictOfEntries_eq_self (es : JObj) (h : (dictKeys es).Nodup) :
    dictOfEntries es = es := by
  unfold dictOfEntries
  have hres := foldl_dictSet_append es [] (by simpa using h)
  simpa using hres

/-! Helper lemmas: Python str.split('.'). -/

theorem pySplitDot_cons (c : Char) (cs : List Char) :
    pySplitDot (c :: cs) =
      if c = '.' then [] :: pySplitDot cs
      else
        match pySplitDot cs with
        | a :: rest => (c :: a) :: rest
        | [] => [[c]] := rfl

theorem pySplitDot_ne_nil (cs : List Char) : pySplitDot cs ≠ [] := by
  cases cs with
  | nil => simp [pySplitDot]
  | cons c cs =>
    rw [pySplitDot_cons]
    by_cases hc : c = '.'
    · simp [hc]
    · rw [if_neg hc]
      rcases pySplitDot cs with _ | ⟨a, rest⟩ <;> simp

theorem pySplitDot_no_dot (cs : List Char) (h : ∀ c ∈ cs, c ≠ '.') :
    pySplitDot cs = [cs] := by
  induction cs with
  | nil => rfl
  | cons c cs ih =>
    rw [pySplitDot_cons, if_neg (h c (by simp))]
    rw [ih (fun x hx => h x (by simp [hx]))]

theorem pySplitDot_append (l₁ l₂ : List Char) (h : ∀ c ∈ l₁, c ≠ '.') :
    pySplitDot (l₁ ++ '.' :: l₂) = l₁ :: pySplitDot l₂ := by
  induction l₁ with
  | nil => simp [pySplitDot_cons]
  | cons c l₁ ih =>
    have hc : c ≠ '.' := h c (by simp)
    rw [List.cons_append, pySplitDot_cons, if_neg hc]
    rw [ih (fun x hx => h x (by simp [hx]))]

/-! Helper lemmas: base64url. -/

theorem b64Val_b64Char : ∀ n, n < 64 → b64Val (b64Char n) = n := by decide

theorem b64Char_props : ∀ n, n < 64 →
    isB64Char (b64Char n) = true ∧ b64Char n ≠ '=' ∧ b64Char n ≠ '.' := by decide

theorem dropWhile_of_all {p : Char → Bool} {l : List Char}
    (h : ∀ c ∈ l, p c = false) : l.dropWhile p = l := by
  cases l with
  | nil => rfl
  | cons c cs => rw [List.dropWhile_cons, if_neg (by simp [h c (by simp)])]

theorem takeWhile_append_all {p : Char → Bool} {l₁ l₂ : List Char}
    (h : ∀ c ∈ l₁, p c = true) : (l₁ ++ l₂).takeWhile p = l₁ ++ l₂.takeWhile p := by
  induction l₁ with
  | nil => simp
  | cons c cs ih =>
    rw [List.cons_append, List.takeWhile_cons, if_pos (h c (by simp))]
    rw [ih (fun x hx => h x (by simp [hx]))]
    rfl

theorem dropWhile_replicate_eq (k : Nat) :
    (List.replicate k '=').dropWhile (fun c => c = '=') = [] := by
  induction k with
  | zero => rfl
  | succ k ih => rw [List.replicate_succ, List.dropWhile_cons, if_pos (by simp)]; exact ih

theorem takeWhile_replicate_ne (k : Nat) :
    (List.replicate k '=').takeWhile (fun c => c ≠ '=') = [] := by
  cases k with
  | zero => rfl
  | succ k => rw [List.replicate_succ, List.takeWhile_cons, if_neg (by simp)]

theorem rstrip_append_replicate (l : List Char) (k : Nat)
    (h : ∀ c ∈ l, ¬ c = '=') :
    ((l ++ List.replicate k '=').reverse.dropWhile (fun c => c = '=')).reverse = l := by
  rw [List.reverse_append, List.reverse_replicate, List.dropWhile_append]
  rw [dropWhile_replicate_eq]
  simp only [List.isEmpty_nil, if_pos]
  rw [dropWhile_of_all (fun c hc => by simpa using h c (List.mem_reverse.mp hc))]
  exact List.reverse_reverse l

theorem b64EncodeBytes_eq (bs : List Nat) :
    b64EncodeBytes bs
      = b64EncodeNoPad bs ++ List.replicate ((3 - bs.length % 3) % 3) '=' := by
  match bs with
  | [] => rfl
  | [x] => rfl
  | [x, y] => rfl
  | x :: y :: z :: rest =>
    have ih := b64EncodeBytes_eq rest
    show _ :: _ :: _ :: _ :: b64EncodeBytes rest
        = (_ :: _ :: _ :: _ :: b64EncodeNoPad rest) ++ _
    rw [ih]
    have hm : List.replicate ((3 - (x :: y :: z :: rest).length % 3) % 3) '='
        = List.replicate ((3 - rest.length % 3) % 3) '=' := by
      congr 1
      simp only [List.length_cons]
      omega
    rw [hm]
    simp [List.cons_append]

theorem b64EncodeNoPad_mem (bs : List Nat) (hb : ∀ b ∈ bs, b < 256) :
    ∀ c ∈ b64EncodeNoPad bs, isB64Char c = true ∧ c ≠ '=' ∧ c ≠ '.' := by
  match bs with
  | [] => intro c hc; simp [b64EncodeNoPad] at hc
  | [x] =>
    have hx : x < 256 := hb x (by simp)
    intro c hc
    simp only [b64EncodeNoPad, List.mem_cons, List.not_mem_nil, or_false] at hc
    rcases hc with h | h <;> (subst h; exact b64Char_props _ (by omega))
  | [x, y] =>
    have hx : x < 256 := hb x (by simp)
    have hy : y < 256 := hb y (by simp)
    intro c hc
    simp only [b64EncodeNoPad, List.mem_cons, List.not_mem_nil, or_false] at hc
    rcases hc with h | h | h <;> (subst h; exact b64Char_props _ (by omega))
  | x :: y :: z :: rest =>
    have hx : x < 256 := hb x (by simp)
    have hy : y < 256 := hb y (by simp)
    have hz : z < 256 := hb z (by simp)
    have ih := b64EncodeNoPad_mem rest (fun b hbm => hb b (by simp [hbm]))
    intro c hc
    simp only [b64EncodeNoPad, List.mem_cons] at hc
    rcases hc with h | h | h | h | h
    · subst h; exact b64Char_props _ (by omega)
    · subst h; exact b64Char_props _ (by omega)
    · subst h; exact b64Char_props _ (by omega)
    · subst h; exact b64Char_props _ (by omega)
    · exact ih c h

theorem b64NoPad_data (bs : List Nat) (hb : ∀ b ∈ bs, b < 256) :
    (b64NoPad bs).data = b64EncodeNoPad bs := by
  show ((String.mk (b64EncodeBytes bs)).data.reverse.dropWhile (fun c => c = '=')).reverse
      = b64EncodeNoPad bs
  rw [show (String.mk (b64EncodeBytes bs)).data = b64EncodeBytes bs from rfl]
  rw [b64EncodeBytes_eq]
  exact rstrip_append_replicate _ _ (fun c hc => (b64EncodeNoPad_mem bs hb c hc).2.1)

theorem decodeQuads_encode (bs : List Nat) (hb : ∀ b ∈ bs, b < 256) :
    decodeQuads ((b64EncodeNoPad bs).map b64Val) = some bs := by
  match bs with
  | [] => rfl
  | [x] =>
    have hx : x < 256 := hb x (by simp)
    show decodeQuads [b64Val (b64Char (x / 4)), b64Val (b64Char ((x % 4) * 16))] = some [x]
    rw [b64Val_b64Char _ (by omega), b64Val_b64Char _ (by omega)]
    show some [x / 4 * 4 + x % 4 * 16 / 16] = some [x]
    congr 2
    omega
  | [x, y] =>
    have hx : x < 256 := hb x (by simp)
    have hy : y < 256 := hb y (by simp)
    show decodeQuads [b64Val (b64Char (x / 4)), b64Val (b64Char ((x % 4) * 16 + y / 16)),
        b64Val (b64Char ((y % 16) * 4))] = some [x, y]
    rw [b64Val_b64Char _ (by omega), b64Val_b64Char _ (by omega), b64Val_b64Char _ (by omega)]
    show some [x / 4 * 4 + ((x % 4) * 16 + y / 16) / 16,
        ((x % 4) * 16 + y / 16) % 16 * 16 + (y % 16) * 4 / 4] = some [x, y]
    congr 3
    · omega
    · omega
  | x :: y :: z :: rest =>
    have hx : x < 256 := hb x (by simp)
    have hy : y < 256 := hb y (by simp)
    have hz : z < 256 := hb z (by simp)
    have ih := decodeQuads_encode rest (fun b hbm => hb b (by simp [hbm]))
    show decodeQuads (b64Val (b64Char (x / 4)) :: b64Val (b64Char ((x % 4) * 16 + y / 16)) ::
        b64Val (b64Char ((y % 16) * 4 + z / 64)) :: b64Val (b64Char (z % 64)) ::
        (b64EncodeNoPad rest).map b64Val) = some (x :: y :: z :: rest)
    rw [b64Val_b64Char _ (by omega), b64Val_b64Char _ (by omega),
        b64Val_b64Char _ (by omega), b64Val_b64Char _ (by omega)]
    show (decodeQuads ((b64EncodeNoPad rest).map b64Val)).map _ = _
    rw [ih]
    simp only [Option.map_some']
    have e1 : x / 4 * 4 + ((x % 4) * 16 + y / 16) / 16 = x := by omega
    have e2 : ((x % 4) * 16 + y / 16) % 16 * 16 + ((y % 16) * 4 + z / 64) / 4 = y := by omega
    have e3 : ((y % 16) * 4 + z / 64) % 4 * 64 + z % 64 = z := by omega
    rw [e1, e2, e3]

theorem urlsafe_b64decode_noPad (bs : List Nat) (k : Nat) (hb : ∀ b ∈ bs, b < 256) :
    urlsafe_b64decode (String.mk (b64EncodeNoPad bs ++ List.replicate k '=')) = some bs := by
  unfold urlsafe_b64decode
  have hfilter : (b64EncodeNoPad bs ++ List.replicate k '=').filter
      (fun c => isB64Char c || c = '=') = b64EncodeNoPad bs ++ List.replicate k '=' := by
    rw [List.filter_eq_self]
    intro c hc
    rcases List.mem_append.mp hc with h | h
    · simp [(b64EncodeNoPad_mem bs hb c h).1]
    · simp [List.eq_of_mem_replicate h]
  have htake : (b64EncodeNoPad bs ++ List.replicate k '=').takeWhile (fun c => c ≠ '=')
      = b64EncodeNoPad bs := by
    rw [takeWhile_append_all (fun c hc => by
      simpa using (b64EncodeNoPad_mem bs hb c hc).2.1)]
    rw [takeWhile_replicate_ne, List.append_nil]
  show decodeQuads ((((String.mk (b64EncodeNoPad bs ++ List.replicate k '=')).data.filter
      (fun c => isB64Char c || c = '=')).takeWhile (fun c => c ≠ '=')).map b64Val) = some bs
  rw [show (String.mk (b64EncodeNoPad bs ++ List.replicate k '=')).data
      = b64EncodeNoPad bs ++ List.replicate k '=' from rfl]
  rw [hfilter, htake]
  exact decodeQuads_encode bs hb

/-! Helper lemmas: UTF-8. -/

theorem char_toNat_lt (c : Char) : c.toNat < 1114112 := by
  have h : c.toNat.isValidChar := c.valid
  rcases h with h | h
  · omega
  · exact h.2

theorem utf8EncodeChar_lt (c : Char) : ∀ b ∈ utf8EncodeChar c, b < 256 := by
  have hlt := char_toNat_lt c
  intro b hb
  simp only [utf8EncodeChar] at hb
  by_cases h1 : c.toNat < 128
  · rw [if_pos h1] at hb
    simp only [List.mem_cons, List.not_mem_nil, or_false] at hb
    omega
  · rw [if_neg h1] at hb
    by_cases h2 : c.toNat < 2048
    · rw [if_pos h2] at hb
      simp only [List.mem_cons, List.not_mem_nil, or_false] at hb
      rcases hb with h | h <;> omega
    · rw [if_neg h2] at hb
      by_cases h3 : c.toNat < 65536
      · rw [if_pos h3] at hb
        simp only [List.mem_cons, List.not_mem_nil, or_false] at hb
        rcases hb with h | h | h <;> omega
      · rw [if_neg h3] at hb
        simp only [List.mem_cons, List.not_mem_nil, or_false] at hb
        rcases hb with h | h | h | h <;> omega

theorem utf8DecodePoints_nil : utf8DecodePoints [] = some [] := by
  rw [utf8DecodePoints.eq_def]

theorem utf8DecodePoints_cons (b : Nat) (rest : List Nat) :
    utf8DecodePoints (b :: rest) =
      (if b < 128 then (utf8DecodePoints rest).map (fun t => b :: t)
      else if b < 192 then none
      else
        match hLead : utf8Lead b rest with
        | none => none
        | some (v, rest2) => (utf8DecodePoints rest2).map (fun t => v :: t)) := by
  rw [utf8DecodePoints.eq_def]

theorem utf8DecodePoints_encodeChar (c : Char) (rest : List Nat) :
    utf8DecodePoints (utf8EncodeChar c ++ rest)
      = (utf8DecodePoints rest).map (fun t => c.toNat :: t) := by
  have hlt := char_toNat_lt c
  by_cases h1 : c.toNat < 128
  · have he : utf8EncodeChar c = [c.toNat] := by simp [utf8EncodeChar, h1]
    rw [he, List.cons_append, List.nil_append, utf8DecodePoints_cons, if_pos h1]
  · have hcomp : utf8Lead ((utf8EncodeChar c).headD 0) ((utf8EncodeChar c).tail ++ rest)
        = some (c.toNat, rest) := by
      by_cases h2 : c.toNat < 2048
      · have he : utf8EncodeChar c = [192 + c.toNat / 64, 128 + c.toNat % 64] := by
          simp [utf8EncodeChar, h1, h2]
        rw [he]
        simp only [List.headD_cons, List.tail_cons, List.cons_append, List.nil_append]
        unfold utf8Lead
        rw [if_pos (by omega)]
        show (if 128 ≤ 128 + c.toNat % 64 ∧ 128 + c.toNat % 64 < 192 then
            some ((192 + c.toNat / 64 - 192) * 64 + (128 + c.toNat % 64 - 128), rest)
          else none) = _
        rw [if_pos (by omega)]
        have : (192 + c.toNat / 64 - 192) * 64 + (128 + c.toNat % 64 - 128)
            = c.toNat := by omega
        rw [this]
      · by_cases h3 : c.toNat < 65536
        · have he : utf8EncodeChar c
              = [224 + c.toNat / 4096, 128 + c.toNat / 64 % 64, 128 + c.toNat % 64] := by
            simp [utf8EncodeChar, h1, h2, h3]
          rw [he]
          simp only [List.headD_cons, List.tail_cons, List.cons_append, List.nil_append]
          unfold utf8Lead
          rw [if_neg (by omega), if_pos (by omega)]
          show (if (128 ≤ 128 + c.toNat / 64 % 64 ∧ 128 + c.toNat / 64 % 64 < 192) ∧
              (128 ≤ 128 + c.toNat % 64 ∧ 128 + c.toNat % 64 < 192) then
              some ((224 + c.toNat / 4096 - 224) * 4096
                + (128 + c.toNat / 64 % 64 - 128) * 64 + (128 + c.toNat % 64 - 128), rest)
            else none) = _
          rw [if_pos (by omega :
            (128 ≤ 128 + c.toNat / 64 % 64 ∧ 128 + c.toNat / 64 % 64 < 192) ∧
            128 ≤ 128 + c.toNat % 64 ∧ 128 + c.toNat % 64 < 192)]
          have : (224 + c.toNat / 4096 - 224) * 4096
              + (128 + c.toNat / 64 % 64 - 128) * 64 + (128 + c.toNat % 64 - 128)
              = c.toNat := by omega
          rw [this]
        · have he : utf8EncodeChar c
              = [240 + c.toNat / 262144, 128 + c.toNat / 4096 % 64,
                 128 + c.toNat / 64 % 64, 128 + c.toNat % 64] := by
            simp [utf8EncodeChar, h1, h2, h3]
          rw [he]
          simp only [List.headD_cons, List.tail_cons, List.cons_append, List.nil_append]
          unfold utf8Lead
          rw [if_neg (by omega), if_neg (by omega)]
          show (if (128 ≤ 128 + c.toNat / 4096 % 64 ∧ 128 + c.toNat / 4096 % 64 < 192) ∧
              (128 ≤ 128 + c.toNat / 64 % 64 ∧ 128 + c.toNat / 64 % 64 < 192) ∧
              (128 ≤ 128 + c.toNat % 64 ∧ 128 + c.toNat % 64 < 192) then
              some ((240 + c.toNat / 262144 - 240) * 262144
                + (128 + c.toNat / 4096 % 64 - 128) * 4096
                + (128 + c.toNat / 64 % 64 - 128) * 64 + (128 + c.toNat % 64 - 128), rest)
            else none) = _
          rw [if_pos (by omega :
            (128 ≤ 128 + c.toNat / 4096 % 64 ∧ 128 + c.toNat / 4096 % 64 < 192) ∧
            (128 ≤ 128 + c.toNat / 64 % 64 ∧ 128 + c.toNat / 64 % 64 < 192) ∧
            128 ≤ 128 + c.toNat % 64 ∧ 128 + c.toNat % 64 < 192)]
          have : (240 + c.toNat / 262144 - 240) * 262144
              + (128 + c.toNat / 4096 % 64 - 128) * 4096
              + (128 + c.toNat / 64 % 64 - 128) * 64 + (128 + c.toNat % 64 - 128)
              = c.toNat := by omega
          rw [this]
    have hhead : 192 ≤ (utf8EncodeChar c).headD 0 ∧ ¬ (utf8EncodeChar c).headD 0 < 192 := by
      by_cases h2 : c.toNat < 2048
      · have he : utf8EncodeChar c = [192 + c.toNat / 64, 128 + c.toNat % 64] := by
          simp [utf8EncodeChar, h1, h2]
        rw [he]
        simp only [List.headD_cons]
        omega
      · by_cases h3 : c.toNat < 65536
        · have he : utf8EncodeChar c
              = [224 + c.toNat / 4096, 128 + c.toNat / 64 % 64, 128 + c.toNat % 64] := by
            simp [utf8EncodeChar, h1, h2, h3]
          rw [he]
          simp only [List.headD_cons]
          omega
        · have he : utf8EncodeChar c
              = [240 + c.toNat / 262144, 128 + c.toNat / 4096 % 64,
                 128 + c.toNat / 64 % 64, 128 + c.toNat % 64] := by
            simp [utf8EncodeChar, h1, h2, h3]
          rw [he]
          simp only [List.headD_cons]
          omega
    have hne : utf8EncodeChar c ≠ [] := by
      intro hnil
      rw [hnil] at hhead
      simp at hhead
    obtain ⟨b, bs, hbs⟩ : ∃ b bs, utf8EncodeChar c = b :: bs := by
      rcases hxs : utf8EncodeChar c with _ | ⟨b, bs⟩
      · exact absurd hxs hne
      · exact ⟨b, bs, rfl⟩
    rw [hbs] at hcomp hhead
    simp only [List.headD_cons, List.tail_cons] at hcomp hhead
    rw [hbs, List.cons_append, utf8DecodePoints_cons]
    rw [if_neg (by omega), if_neg hhead.2]
    split
    · rename_i heq
      rw [hcomp] at heq
      exact absurd heq (by simp)
    · rename_i v rest2 heq
      rw [hcomp] at heq
      injection heq with hpair
      have hv : c.toNat = v := congrArg Prod.fst hpair
      have hr : rest = rest2 := congrArg Prod.snd hpair
      rw [← hv, ← hr]

theorem utf8DecodePoints_encode (cs : List Char) :
    utf8DecodePoints (cs.flatMap utf8EncodeChar) = some (cs.map Char.toNat) := by
  induction cs with
  | nil => rw [List.flatMap_nil, utf8DecodePoints_nil, List.map_nil]
  | cons c cs ih =>
    rw [List.flatMap_cons, utf8DecodePoints_encodeChar, ih]
    rfl

theorem charOfNat?_toNat (c : Char) : charOfNat? c.toNat = some c := by
  unfold charOfNat?
  rw [if_pos (show c.toNat.isValidChar from c.valid), Char.ofNat_toNat]

theorem mapM_charOfNat (cs : List Char) :
    (cs.map Char.toNat).mapM charOfNat? = some cs := by
  induction cs with
  | nil => rfl
  | cons c cs ih =>
    rw [List.map_cons]
    rw [List.mapM_cons, charOfNat?_toNat, ih]
    rfl

theorem strDecode_strEncode (s : String) : strDecode (strEncode s) = some s := by
  unfold strDecode strEncode
  rw [utf8DecodePoints_encode]
  show ((s.data.map Char.toNat).mapM charOfNat?).map String.mk = some s
  rw [mapM_charOfNat]
  rfl

/-! Helper lemmas: JSON serialization round trip. -/

theorem parseStrBody_cons (c : Char) (rest : List Char) :
    parseStrBody (c :: rest) =
      (if c = '"' then some ([], rest)
      else if c = '\\' then
        match rest with
        | [] => none
        | e :: rest2 =>
          if e = '"' || e = '\\' then
            (parseStrBody rest2).map (fun p => (e :: p.1, p.2))
          else none
      else (parseStrBody rest).map (fun p => (c :: p.1, p.2))) := by
  rw [parseStrBody.eq_def]

theorem parseStrBody_escape (cs rest : List Char) :
    parseStrBody (jsonEscape cs ++ '"' :: rest) = some (cs, rest) := by
  induction cs with
  | nil =>
    show parseStrBody ('"' :: rest) = some ([], rest)
    rw [parseStrBody_cons, if_pos rfl]
  | cons c cs ih =>
    show parseStrBody (jsonEscape (c :: cs) ++ '"' :: rest) = some (c :: cs, rest)
    unfold jsonEscape
    by_cases hc : c = '"' || c = '\\'
    · rw [if_pos hc, List.cons_append, List.cons_append, parseStrBody_cons]
      rw [if_neg (by decide), if_pos rfl]
      show (if c = '"' || c = '\\' then
          (parseStrBody (jsonEscape cs ++ '"' :: rest)).map (fun p => (c :: p.1, p.2))
        else none) = some (c :: cs, rest)
      rw [if_pos hc, ih]
      rfl
    · rw [if_neg hc, List.cons_append, parseStrBody_cons]
      simp only [Bool.or_eq_true, decide_eq_true_eq] at hc
      push_neg at hc
      rw [if_neg hc.1, if_neg hc.2, ih]
      rfl

theorem digitChar_toNat : ∀ d, d < 10 → (Nat.digitChar d).toNat = 48 + d := by decide

theorem digitChar_isDigit : ∀ d, d < 10 → (Nat.digitChar d).isDigit = true := by decide

theorem foldl_digits_base (B : List Nat) : ∀ a : Nat,
    B.foldl (fun acc d => acc * 10 + d) a = a * 10 ^ B.length + Nat.ofDigits 10 B.reverse := by
  induction B with
  | nil => intro a; simp [Nat.ofDigits]
  | cons d B ih =>
    intro a
    rw [List.foldl_cons, ih (a * 10 + d)]
    rw [List.reverse_cons, Nat.ofDigits_append]
    simp only [List.length_cons, List.length_reverse, Nat.ofDigits_singleton]
    ring

theorem foldl_digitChar (B : List Nat) (hB : ∀ d ∈ B, d < 10) : ∀ a : Nat,
    (B.map Nat.digitChar).foldl (fun acc c => acc * 10 + (c.toNat - 48)) a
      = B.foldl (fun acc d => acc * 10 + d) a := by
  induction B with
  | nil => intro a; rfl
  | cons d B ih =>
    intro a
    rw [List.map_cons, List.foldl_cons, List.foldl_cons]
    rw [digitChar_toNat d (hB d (by simp))]
    rw [show 48 + d - 48 = d from by omega]
    exact ih (fun x hx => hB x (by simp [hx])) _

theorem digitsVal_dumpNat (n : Nat) : digitsVal (dumpNat n) = n := by
  unfold dumpNat digitsVal
  by_cases h0 : n = 0
  · rw [if_pos h0, h0]
    rfl
  · rw [if_neg h0]
    have hlt : ∀ d ∈ (Nat.digits 10 n).reverse, d < 10 := by
      intro d hd
      exact Nat.digits_lt_base (by norm_num) (List.mem_reverse.mp hd)
    rw [foldl_digitChar _ hlt, foldl_digits_base]
    simp [Nat.ofDigits_digits]

theorem dumpNat_digits (n : Nat) : ∀ c ∈ dumpNat n, c.isDigit = true := by
  unfold dumpNat
  by_cases h0 : n = 0
  · rw [if_pos h0]
    intro c hc
    simp only [List.mem_singleton] at hc
    subst hc
    decide
  · rw [if_neg h0]
    intro c hc
    obtain ⟨d, hd, hdc⟩ := List.mem_map.mp hc
    subst hdc
    exact digitChar_isDigit d (Nat.digits_lt_base (by norm_num) (List.mem_reverse.mp hd))

theorem dumpNat_ne_nil (n : Nat) : dumpNat n ≠ [] := by
  unfold dumpNat
  by_cases h0 : n = 0
  · rw [if_pos h0]; simp
  · rw [if_neg h0]
    simp only [ne_eq, List.map_eq_nil_iff, List.reverse_eq_nil_iff]
    exact Nat.digits_ne_nil_iff_ne_zero.mpr h0

theorem dropWhile_eq_nil_of_all {p : Char → Bool} {l : List Char}
    (h : ∀ c ∈ l, p c = true) : l.dropWhile p = [] := by
  induction l with
  | nil => rfl
  | cons c cs ih =>
    rw [List.dropWhile_cons, if_pos (h c (by simp))]
    exact ih (fun x hx => h x (by simp [hx]))

theorem parseDigits_dump (n : Nat) (rest : List Char)
    (h : ∀ c, rest.head? = some c → c.isDigit = false) :
    parseDigits (dumpNat n ++ rest) = some (n, rest) := by
  have htail : rest.takeWhile Char.isDigit = [] := by
    cases rest with
    | nil => rfl
    | cons c cs => rw [List.takeWhile_cons, if_neg (by simp [h c rfl])]
  have htake : (dumpNat n ++ rest).takeWhile Char.isDigit = dumpNat n := by
    rw [takeWhile_append_all (dumpNat_digits n), htail, List.append_nil]
  have hdrop : (dumpNat n ++ rest).dropWhile Char.isDigit = rest := by
    rw [List.dropWhile_append, dropWhile_eq_nil_of_all (dumpNat_digits n)]
    rw [if_pos (by simp)]
    cases rest with
    | nil => rfl
    | cons c cs => rw [List.dropWhile_cons, if_neg (by simp [h c rfl])]
  simp only [parseDigits, htake, hdrop]
  rw [if_neg (by simp [dumpNat_ne_nil n])]
  rw [digitsVal_dumpNat]

theorem parseIntTok_dump (i : Int) (rest : List Char)
    (h : ∀ c, rest.head? = some c → c.isDigit = false) :
    parseIntTok (dumpInt i ++ rest) = some (i, rest) := by
  unfold dumpInt
  by_cases hneg : i < 0
  · rw [if_pos hneg, List.cons_append]
    show (if ('-' : Char) = '-' then
        (parseDigits (dumpNat i.natAbs ++ rest)).map (fun p => (-(p.1 : Int), p.2))
      else (parseDigits ('-' :: (dumpNat i.natAbs ++ rest))).map
        (fun p => ((p.1 : Int), p.2))) = some (i, rest)
    rw [if_pos rfl, parseDigits_dump _ _ h]
    show some (-(i.natAbs : Int), rest) = some (i, rest)
    have hval : -((i.natAbs : Int)) = i := by omega
    rw [hval]
  · rw [if_neg hneg]
    rcases hd : dumpNat i.natAbs with _ | ⟨c, cs'⟩
    · exact absurd hd (dumpNat_ne_nil _)
    · have hcd : c.isDigit = true := dumpNat_digits _ c (by rw [hd]; simp)
      have hcm : ¬ c = '-' := by
        intro hcc
        rw [hcc] at hcd
        exact absurd hcd (by decide)
      rw [List.cons_append]
      show (if c = '-' then (parseDigits (cs' ++ rest)).map (fun p => (-(p.1 : Int), p.2))
        else (parseDigits (c :: (cs' ++ rest))).map (fun p => ((p.1 : Int), p.2)))
        = some (i, rest)
      rw [if_neg hcm, ← List.cons_append, ← hd, parseDigits_dump _ _ h]
      show some ((i.natAbs : Int), rest) = some (i, rest)
      have hval : ((i.natAbs : Int)) = i := by omega
      rw [hval]

theorem parseJVal_dump (v : JVal) (rest : List Char)
    (h : ∀ c, rest.head? = some c → c.isDigit = false) :
    parseJVal (dumpVal v ++ rest) = some (v, rest) := by
  cases v with
  | jstr s =>
    show parseJVal (dumpStr s ++ rest) = some (.jstr s, rest)
    unfold dumpStr
    rw [List.cons_append]
    show (if ('"' : Char) = '"' then
        (parseStrBody ((jsonEscape s.data ++ ['"']) ++ rest)).map
          (fun p => (JVal.jstr (String.mk p.1), p.2))
      else (parseIntTok ('"' :: ((jsonEscape s.data ++ ['"']) ++ rest))).map
        (fun p => (JVal.jint p.1, p.2))) = some (.jstr s, rest)
    rw [if_pos rfl, List.append_assoc]
    show (parseStrBody (jsonEscape s.data ++ ('"' :: rest))).map
        (fun p => (JVal.jstr (String.mk p.1), p.2)) = some (.jstr s, rest)
    rw [parseStrBody_escape]
    rfl
  | jint i =>
    show parseJVal (dumpInt i ++ rest) = some (.jint i, rest)
    have hne : ∃ c cs', dumpInt i ++ rest = c :: cs' ∧ ¬ c = '"' := by
      unfold dumpInt
      by_cases hneg : i < 0
      · rw [if_pos hneg, List.cons_append]
        exact ⟨'-', _, rfl, by decide⟩
      · rw [if_neg hneg]
        rcases hd : dumpNat i.natAbs with _ | ⟨c, cs'⟩
        · exact absurd hd (dumpNat_ne_nil _)
        · have hcd : c.isDigit = true := dumpNat_digits _ c (by rw [hd]; simp)
          refine ⟨c, cs' ++ rest, by rw [List.cons_append], ?_⟩
          intro hcc
          rw [hcc] at hcd
          exact absurd hcd (by decide)
    obtain ⟨c, cs', heq, hc⟩ := hne
    rw [heq]
    show (if c = '"' then
        (parseStrBody cs').map (fun p => (JVal.jstr (String.mk p.1), p.2))
      else (parseIntTok (c :: cs')).map (fun p => (JVal.jint p.1, p.2)))
      = some (.jint i, rest)
    rw [if_neg hc, ← heq, parseIntTok_dump i rest h]
    rfl

theorem skipWs_cons_of_not {c : Char} (l : List Char) (h : isJsonWs c = false) :
    skipWs (c :: l) = c :: l := by
  unfold skipWs
  rw [List.dropWhile_cons, if_neg (by simp [h])]

theorem not_ws_of_digit {c : Char} (h : c.isDigit = true) : isJsonWs c = false := by
  have h1 : c ≠ ' ' := fun e => absurd (e ▸ h) (by decide)
  have h2 : c ≠ '\t' := fun e => absurd (e ▸ h) (by decide)
  have h3 : c ≠ '\n' := fun e => absurd (e ▸ h) (by decide)
  have h4 : c ≠ '\r' := fun e => absurd (e ▸ h) (by decide)
  simp [isJsonWs, h1, h2, h3, h4]

theorem dumpVal_head_not_ws (v : JVal) (X : List Char) :
    skipWs (dumpVal v ++ X) = dumpVal v ++ X := by
  cases v with
  | jstr s =>
    rw [show dumpVal (.jstr s) = '"' :: (jsonEscape s.data ++ ['"']) from rfl,
        List.cons_append]
    exact skipWs_cons_of_not _ (by decide)
  | jint i =>
    rw [show dumpVal (.jint i) = dumpInt i from rfl]
    unfold dumpInt
    by_cases hneg : i < 0
    · rw [if_pos hneg, List.cons_append]
      exact skipWs_cons_of_not _ (by decide)
    · rw [if_neg hneg]
      rcases hd : dumpNat i.natAbs with _ | ⟨c, cs'⟩
      · exact absurd hd (dumpNat_ne_nil _)
      · rw [List.cons_append]
        exact skipWs_cons_of_not _
          (not_ws_of_digit (dumpNat_digits _ c (by rw [hd]; simp)))

theorem parseAfterVal_brace (recur : List Char → Option (JObj × List Char))
    (k : List Char) (v : JVal) (r6 : List Char) :
    parseAfterVal recur k v ('}' :: r6) = some ([(String.mk k, v)], r6) := rfl

theorem parseAfterVal_comma (recur : List Char → Option (JObj × List Char))
    (k : List Char) (v : JVal) (r6 : List Char) :
    parseAfterVal recur k v (',' :: r6)
      = (recur r6).map (fun p => ((String.mk k, v) :: p.1, p.2)) := rfl

theorem parseAfterKey_colon (recur : List Char → Option (JObj × List Char))
    (k : List Char) (X : List Char) :
    parseAfterKey recur k (':' :: ' ' :: X)
      = match parseJVal (skipWs X) with
        | none => none
        | some (v, r4) => parseAfterVal recur k v r4 := rfl

theorem parseEntries_ws (g : Nat) (cs : List Char) :
    parseEntries (g + 1) (' ' :: cs) = parseEntries (g + 1) cs := rfl

theorem parseEntries_quote (fuel : Nat) (cs rest : List Char)
    (h : skipWs cs = '"' :: rest) :
    parseEntries (fuel + 1) cs
      = match parseStrBody rest with
        | none => none
        | some (k, r1) => parseAfterKey (parseEntries fuel) k r1 := by
  show (match skipWs cs with
    | [] => none
    | c :: rest =>
      if c ≠ '"' then none
      else
        match parseStrBody rest with
        | none => none
        | some (k, r1) => parseAfterKey (parseEntries fuel) k r1) = _
  rw [h]
  rfl

theorem parseEntries_dumpEntry (f : Nat) (k : String) (v : JVal) (T : List Char)
    (hT : ∀ c, T.head? = some c → c.isDigit = false) :
    parseEntries (f + 1) (dumpEntry (k, v) ++ T)
      = parseAfterVal (parseEntries f) k.data v T := by
  have hskip : skipWs (dumpEntry (k, v) ++ T)
      = '"' :: (((jsonEscape k.data ++ ['"']) ++ (':' :: ' ' :: dumpVal v)) ++ T) :=
    skipWs_cons_of_not _ (by decide)
  rw [parseEntries_quote f _ _ hskip]
  have hre : ((jsonEscape k.data ++ ['"']) ++ (':' :: ' ' :: dumpVal v)) ++ T
      = jsonEscape k.data ++ ('"' :: (':' :: ' ' :: (dumpVal v ++ T))) := by
    simp [List.append_assoc]
  rw [hre, parseStrBody_escape]
  show parseAfterKey (parseEntries f) k.data (':' :: ' ' :: (dumpVal v ++ T)) = _
  rw [parseAfterKey_colon, dumpVal_head_not_ws v T, parseJVal_dump v T hT]

theorem parseEntries_dump (o : JObj) : ∀ (fuel : Nat) (rest : List Char),
    o ≠ [] → o.length ≤ fuel →
    parseEntries fuel (joinEntries (o.map dumpEntry) ++ '}' :: rest) = some (o, rest) := by
  induction o with
  | nil =>
    intro fuel rest h _
    exact absurd rfl h
  | cons kv o' ih =>
    intro fuel rest _ hlen
    obtain ⟨k, v⟩ := kv
    obtain ⟨f, rfl⟩ : ∃ f, fuel = f + 1 := by
      cases fuel with
      | zero => simp at hlen
      | succ f => exact ⟨f, rfl⟩
    cases o' with
    | nil =>
      show parseEntries (f + 1) (dumpEntry (k, v) ++ '}' :: rest) = some ([(k, v)], rest)
      rw [parseEntries_dumpEntry f k v ('}' :: rest) (fun c hc => by
        simp only [List.head?_cons, Option.some_inj] at hc
        rw [← hc]
        rfl)]
      rw [parseAfterVal_brace]
    | cons kv2 o'' =>
      show parseEntries (f + 1)
          ((dumpEntry (k, v) ++ (',' :: ' ' :: joinEntries ((kv2 :: o'').map dumpEntry)))
            ++ '}' :: rest) = some ((k, v) :: kv2 :: o'', rest)
      rw [List.append_assoc]
      rw [parseEntries_dumpEntry f k v _ (fun c hc => by
        simp only [List.cons_append, List.head?_cons, Option.some_inj] at hc
        rw [← hc]
        rfl)]
      rw [show (',' :: ' ' :: joinEntries ((kv2 :: o'').map dumpEntry)) ++ '}' :: rest
          = ',' :: ' ' :: (joinEntries ((kv2 :: o'').map dumpEntry) ++ '}' :: rest) from rfl]
      rw [parseAfterVal_comma]
      obtain ⟨g, rfl⟩ : ∃ g, f = g + 1 := by
        simp only [List.length_cons] at hlen
        cases f with
        | zero => omega
        | succ g => exact ⟨g, rfl⟩
      rw [parseEntries_ws]
      rw [ih (g + 1) rest (by simp) (by simp only [List.length_cons] at hlen ⊢; omega)]
      rfl

theorem length_le_joinEntries (o : JObj) :
    o.length ≤ (joinEntries (o.map dumpEntry)).length + 1 := by
  induction o with
  | nil => simp [joinEntries]
  | cons kv o' ih =>
    cases o' with
    | nil =>
      show (1 : Nat) ≤ (dumpEntry kv).length + 1
      omega
    | cons kv2 o'' =>
      show (kv :: kv2 :: o'').length
          ≤ (dumpEntry kv ++ ',' :: ' ' :: joinEntries ((kv2 :: o'').map dumpEntry)).length + 1
      simp only [List.length_cons, List.length_append] at ih ⊢
      omega

theorem loads_dumps (o : JObj) : loads (dumps o) = some (dictOfEntries o) := by
  cases o with
  | nil => rfl
  | cons kv o' =>
    obtain ⟨k, v⟩ := kv
    obtain ⟨TAIL, hTAIL⟩ : ∃ TAIL, joinEntries (((k, v) :: o').map dumpEntry)
        = dumpEntry (k, v) ++ TAIL := by
      cases o' with
      | nil => exact ⟨[], by simp [joinEntries]⟩
      | cons kv2 o'' => exact ⟨',' :: ' ' :: joinEntries ((kv2 :: o'').map dumpEntry), rfl⟩
    show (match skipWs (String.mk
        ('{' :: (joinEntries (((k, v) :: o').map dumpEntry) ++ ['}']))).data with
      | [] => none
      | c :: rest =>
        if c ≠ '{' then none
        else
          match skipWs rest with
          | [] => none
          | c2 :: r2 =>
            if c2 = '}' then (if (skipWs r2).isEmpty then some [] else none)
            else
              match parseEntries ((c2 :: r2).length + 1) (c2 :: r2) with
              | some (es, r3) =>
                if (skipWs r3).isEmpty then some (dictOfEntries es) else none
              | none => none) = some (dictOfEntries ((k, v) :: o'))
    rw [show (String.mk ('{' :: (joinEntries (((k, v) :: o').map dumpEntry) ++ ['}']))).data
        = '{' :: (joinEntries (((k, v) :: o').map dumpEntry) ++ ['}']) from rfl]
    rw [skipWs_cons_of_not _ (by decide)]
    show (match skipWs (joinEntries (((k, v) :: o').map dumpEntry) ++ ['}']) with
      | [] => none
      | c2 :: r2 =>
        if c2 = '}' then (if (skipWs r2).isEmpty then some [] else none)
        else
          match parseEntries ((c2 :: r2).length + 1) (c2 :: r2) with
          | some (es, r3) => if (skipWs r3).isEmpty then some (dictOfEntries es) else none
          | none => none) = _
    rw [hTAIL, List.append_assoc]
    rw [show dumpEntry (k, v) ++ (TAIL ++ ['}'])
        = '"' :: (((jsonEscape k.data ++ ['"'])
            ++ (':' :: ' ' :: dumpVal v)) ++ (TAIL ++ ['}'])) from rfl]
    rw [skipWs_cons_of_not _ (by decide)]
    show (match parseEntries
        (('"' :: (((jsonEscape k.data ++ ['"'])
            ++ (':' :: ' ' :: dumpVal v)) ++ (TAIL ++ ['}']))).length + 1)
        ('"' :: (((jsonEscape k.data ++ ['"'])
            ++ (':' :: ' ' :: dumpVal v)) ++ (TAIL ++ ['}']))) with
      | some (es, r3) => if (skipWs r3).isEmpty then some (dictOfEntries es) else none
      | none => none) = _
    rw [show ('"' :: (((jsonEscape k.data ++ ['"'])
        ++ (':' :: ' ' :: dumpVal v)) ++ (TAIL ++ ['}'])))
        = dumpEntry (k, v) ++ (TAIL ++ ['}']) from rfl]
    rw [← List.append_assoc, ← hTAIL]
    have hfuel : ((k, v) :: o').length
        ≤ (joinEntries (((k, v) :: o').map dumpEntry) ++ ['}']).length + 1 := by
      have hle := length_le_joinEntries ((k, v) :: o')
      simp only [List.length_append, List.length_cons, List.length_nil] at hle ⊢
      omega
    rw [parseEntries_dump ((k, v) :: o') _ [] (by simp) hfuel]
    rfl

theorem loads_dumps_nodup (o : JObj) (h : (dictKeys o).Nodup) :
    loads (dumps o) = some o := by
  rw [loads_dumps, dictOfEntries_eq_self o h]

/-! Helper lemmas: byte bounds and string plumbing. -/

theorem strEncode_lt (s : String) : ∀ b ∈ strEncode s, b < 256 := by
  intro b hb
  obtain ⟨c, _, hc⟩ := List.mem_flatMap.mp hb
  exact utf8EncodeChar_lt c b hc

theorem natToBe_lt (w n : Nat) : ∀ b ∈ natToBe w n, b < 256 := by
  intro b hb
  obtain ⟨i, _, hi⟩ := List.mem_map.mp hb
  omega

theorem sha256_lt (msg : List Nat) : ∀ b ∈ sha256 msg, b < 256 := by
  intro b hb
  unfold sha256 at hb
  obtain ⟨w, _, hw⟩ := List.mem_flatMap.mp hb
  exact natToBe_lt 4 w b hw

theorem hmacSha256_lt (key msg : List Nat) : ∀ b ∈ hmacSha256 key msg, b < 256 := by
  intro b hb
  unfold hmacSha256 at hb
  exact sha256_lt _ b hb

theorem string_append_mk (s : String) (l : List Char) :
    s ++ String.mk l = String.mk (s.data ++ l) := by
  cases s
  rfl

theorem string_mk_data (s : String) : String.mk s.data = s := rfl

/-! Helper lemmas: the payload dict built by generate_token. -/

theorem tokenPayload_nodup (uid : Option String) (e : Option Int) (ad : Option JObj)
    (now : Nat) (rand16 : List Nat) :
    (dictKeys (tokenPayload uid e ad now rand16)).Nodup := by
  have h0 : (dictKeys
      [("iat", JVal.jint (now : Int)), ("jti", JVal.jstr (token_hex rand16))]).Nodup := by
    simp [dictKeys]
  unfold tokenPayload
  have hstep1 : ∀ d : JObj, (dictKeys d).Nodup → (dictKeys (match uid with
      | some u => if u ≠ "" then dictSet d "sub" (.jstr u) else d
      | none => d)).Nodup := by
    intro d hd
    cases uid with
    | none => exact hd
    | some u =>
      show (dictKeys (if u ≠ "" then dictSet d "sub" (.jstr u) else d)).Nodup
      by_cases hu : u ≠ ""
      · rw [if_pos hu]
        exact dictKeys_dictSet_nodup _ _ _ hd
      · rw [if_neg hu]
        exact hd
  have hstep2 : ∀ d : JObj, (dictKeys d).Nodup → (dictKeys (match e with
      | some x => if x ≠ 0 then dictSet d "exp" (.jint ((now : Int) + x)) else d
      | none => d)).Nodup := by
    intro d hd
    cases e with
    | none => exact hd
    | some x =>
      show (dictKeys (if x ≠ 0 then dictSet d "exp" (.jint ((now : Int) + x)) else d)).Nodup
      by_cases hx : x ≠ 0
      · rw [if_pos hx]
        exact dictKeys_dictSet_nodup _ _ _ hd
      · rw [if_neg hx]
        exact hd
  have hstep3 : ∀ d : JObj, (dictKeys d).Nodup → (dictKeys (match ad with
      | some a => if a ≠ [] then dictUpdate d a else d
      | none => d)).Nodup := by
    intro d hd
    cases ad with
    | none => exact hd
    | some a =>
      show (dictKeys (if a ≠ [] then dictUpdate d a else d)).Nodup
      by_cases ha : a ≠ []
      · rw [if_pos ha]
        exact dictKeys_dictUpdate_nodup _ _ hd
      · rw [if_neg ha]
        exact hd
  exact hstep3 _ (hstep2 _ (hstep1 _ h0))

theorem tokenPayload_update (uid : Option String) (e : Option Int) (a : JObj)
    (now : Nat) (r : List Nat) :
    tokenPayload uid e (some a) now r
      = if a ≠ [] then dictUpdate (tokenPayload uid e none now r) a
        else tokenPayload uid e none now r := rfl

theorem tokenPayload_exp_some (uid : Option String) (x : Int) (now : Nat) (r : List Nat) :
    tokenPayload uid (some x) none now r
      = if x ≠ 0 then
          dictSet (tokenPayload uid none none now r) "exp" (.jint ((now : Int) + x))
        else tokenPayload uid none none now r := rfl

theorem tokenPayload_sub_some (u : String) (now : Nat) (r : List Nat) :
    tokenPayload (some u) none none now r
      = if u ≠ "" then
          dictSet [("iat", JVal.jint (now : Int)), ("jti", JVal.jstr (token_hex r))]
            "sub" (.jstr u)
        else [("iat", JVal.jint (now : Int)), ("jti", JVal.jstr (token_hex r))] := rfl

theorem tokenPayload_base (now : Nat) (r : List Nat) :
    tokenPayload none none none now r
      = [("iat", JVal.jint (now : Int)), ("jti", JVal.jstr (token_hex r))] := rfl

theorem dictGet_base_iat (a b : JVal) :
    dictGet [("iat", a), ("jti", b)] "iat" = some a := rfl

theorem dictGet_base_jti (a b : JVal) :
    dictGet [("iat", a), ("jti", b)] "jti" = some b := rfl

theorem dictGet_base_exp (a b : JVal) :
    dictGet [("iat", a), ("jti", b)] "exp" = none := rfl

theorem tokenPayload_none_get_iat (uid : Option String) (e : Option Int)
    (now : Nat) (r : List Nat) :
    dictGet (tokenPayload uid none none now r) "iat" = some (.jint (now : Int)) ∧
    dictGet (tokenPayload uid none none now r) "jti"
      = some (.jstr (token_hex r)) ∧
    dictGet (tokenPayload uid none none now r) "exp" = none ∧
    dictGet (tokenPayload uid e none now r) "iat" = some (.jint (now : Int)) ∧
    dictGet (tokenPayload uid e none now r) "jti" = some (.jstr (token_hex r)) := by
  have hbase : dictGet (tokenPayload uid none none now r) "iat" = some (.jint (now : Int)) ∧
      dictGet (tokenPayload uid none none now r) "jti" = some (.jstr (token_hex r)) ∧
      dictGet (tokenPayload uid none none now r) "exp" = none := by
    cases uid with
    | none =>
      rw [tokenPayload_base]
      exact ⟨dictGet_base_iat _ _, dictGet_base_jti _ _, dictGet_base_exp _ _⟩
    | some u =>
      rw [tokenPayload_sub_some]
      by_cases hu : u ≠ ""
      · rw [if_pos hu]
        refine ⟨?_, ?_, ?_⟩ <;>
          rw [dictGet_dictSet, if_neg (by decide)]
        · exact dictGet_base_iat _ _
        · exact dictGet_base_jti _ _
        · exact dictGet_base_exp _ _
      · rw [if_neg hu]
        exact ⟨dictGet_base_iat _ _, dictGet_base_jti _ _, dictGet_base_exp _ _⟩
  refine ⟨hbase.1, hbase.2.1, hbase.2.2, ?_, ?_⟩ <;>
    cases e with
    | none => first
      | exact hbase.1
      | exact hbase.2.1
    | some x =>
      rw [tokenPayload_exp_some]
      by_cases hx : x ≠ 0
      · rw [if_pos hx, dictGet_dictSet, if_neg (by decide)]
        first
          | exact hbase.1
          | exact hbase.2.1
      · rw [if_neg hx]
        first
          | exact hbase.1
          | exact hbase.2.1

theorem tokenPayload_get_update_notMem (uid : Option String) (e : Option Int)
    (ad : Option JObj) (now : Nat) (r : List Nat) (k : String)
    (hk : k ∉ dictKeys (ad.getD [])) :
    dictGet (tokenPayload uid e ad now r) k
      = dictGet (tokenPayload uid e none now r) k := by
  cases ad with
  | none => rfl
  | some a =>
    rw [tokenPayload_update]
    by_cases ha : a ≠ []
    · rw [if_pos ha]
      exact dictGet_dictUpdate_notMem _ a k (by simpa using hk)
    · rw [if_neg ha]

theorem tokenPayload_none_get_exp_some (uid : Option String) (x : Int) (now : Nat)
    (r : List Nat) (hx : x ≠ 0) :
    dictGet (tokenPayload uid (some x) none now r) "exp"
      = some (.jint ((now : Int) + x)) := by
  rw [tokenPayload_exp_some, if_pos hx, dictGet_dictSet, if_pos rfl]

theorem tokenPayload_none_get_exp_zero (uid : Option String) (now : Nat) (r : List Nat) :
    dictGet (tokenPayload uid (some 0) none now r) "exp" = none := by
  rw [tokenPayload_exp_some, if_neg (by simp)]
  exact (tokenPayload_none_get_iat uid none now r).2.2.1

theorem tokenPayload_get_mem (uid : Option String) (e : Option Int) (now : Nat)
    (r : List Nat) (a : JObj) (k : String) (v : JVal)
    (hnd : (dictKeys a).Nodup) (hmem : (k, v) ∈ a) :
    dictGet (tokenPayload uid e (some a) now r) k = some v := by
  rw [tokenPayload_update]
  have ha : a ≠ [] := by rintro rfl; simp at hmem
  rw [if_pos ha]
  exact dictGet_dictUpdate_mem _ a k v hnd hmem

/-! The master round-trip lemma: validating a freshly generated token with
the same secret reduces to the expiry check over the generated payload. -/

theorem validate_generate (secret : String) (uid : Option String) (e : Option Int)
    (ad : Option JObj) (now t : Nat) (rand16 : List Nat) (tok : String)
    (hs : secret ≠ "")
    (hg : generate_token secret uid e ad now rand16 = .ok tok) :
    validate_token tok secret t =
      (match dictGet (tokenPayload uid e ad now rand16) "exp" with
      | some (.jint x) =>
        if x < (t : Int) then (false, none)
        else (true, some (tokenPayload uid e ad now rand16))
      | some (.jstr _) => (false, none)
      | none => (true, some (tokenPayload uid e ad now rand16))) := by
  unfold generate_token at hg
  rw [if_neg hs] at hg
  injection hg with htok
  subst htok
  have hblt : ∀ b ∈ strEncode (dumps (tokenPayload uid e ad now rand16)), b < 256 :=
    strEncode_lt _
  have hpbdata : (b64NoPad (strEncode (dumps (tokenPayload uid e ad now rand16)))).data
      = b64EncodeNoPad (strEncode (dumps (tokenPayload uid e ad now rand16))) :=
    b64NoPad_data _ hblt
  have hsbdata : ∀ pb : String, (signPayload secret pb).data
      = b64EncodeNoPad (hmacSha256 (strEncode secret) (strEncode pb)) :=
    fun pb => b64NoPad_data _ (hmacSha256_lt _ _)
  have hdata : ∀ pb sb : String, (pb ++ "." ++ sb).data = pb.data ++ '.' :: sb.data := by
    intro pb sb
    rw [String.data_append, String.data_append]
    rw [show ("." : String).data = ['.'] from rfl]
    rw [List.append_assoc]
    rfl
  have hnodot_pb : ∀ c ∈ (b64NoPad (strEncode (dumps (tokenPayload uid e ad now rand16)))).data,
      c ≠ '.' := by
    rw [hpbdata]
    intro c hc
    exact (b64EncodeNoPad_mem _ hblt c hc).2.2
  have hnodot_sb : ∀ sb : String,
      (∀ c ∈ (signPayload secret sb).data, c ≠ '.') := by
    intro sb c hc
    rw [hsbdata] at hc
    exact (b64EncodeNoPad_mem _ (hmacSha256_lt _ _) c hc).2.2
  unfold validate_token
  rw [if_neg ?hguard]
  case hguard =>
    rintro (h | h)
    · have hd := congrArg String.data h
      rw [hdata] at hd
      simp at hd
    · exact hs h
  rw [hdata, pySplitDot_append _ _ hnodot_pb, pySplitDot_no_dot _ (hnodot_sb _)]
  show (if String.mk (signPayload secret
        (b64NoPad (strEncode (dumps (tokenPayload uid e ad now rand16))))).data
      ≠ signPayload secret (String.mk
        (b64NoPad (strEncode (dumps (tokenPayload uid e ad now rand16)))).data)
    then ((false : Bool), (none : Option JObj))
    else match decodePayload (String.mk
        (b64NoPad (strEncode (dumps (tokenPayload uid e ad now rand16)))).data) with
      | none => (false, none)
      | some payload =>
        match dictGet payload "exp" with
        | some (.jint x) => if x < (t : Int) then (false, none) else (true, some payload)
        | some (.jstr _) => (false, none)
        | none => (true, some payload)) = _
  rw [if_neg (not_not_intro rfl)]
  rw [string_mk_data]
  have hdec : decodePayload (b64NoPad (strEncode (dumps (tokenPayload uid e ad now rand16))))
      = some (tokenPayload uid e ad now rand16) := by
    unfold decodePayload
    show (match urlsafe_b64decode
        (b64NoPad (strEncode (dumps (tokenPayload uid e ad now rand16)))
          ++ String.mk (List.replicate
            (4 - (b64NoPad (strEncode (dumps (tokenPayload uid e ad now rand16)))).length % 4)
            '=')) with
      | none => none
      | some payload_bytes => (strDecode payload_bytes).bind loads)
      = some (tokenPayload uid e ad now rand16)
    rw [string_append_mk, hpbdata]
    rw [urlsafe_b64decode_noPad _ _ hblt]
    show (strDecode (strEncode (dumps (tokenPayload uid e ad now rand16)))).bind loads
        = some (tokenPayload uid e ad now rand16)
    rw [strDecode_strEncode]
    show loads (dumps (tokenPayload uid e ad now rand16)) = _
    exact loads_dumps_nodup _ (tokenPayload_nodup uid e ad now rand16)
  rw [hdec]

/-! Helper lemmas: validate_token guard, gate characterization, token_hex. -/

theorem validate_token_empty_secret (token : String) (now : Nat) :
    validate_token token "" now = (false, none) := by
  unfold validate_token
  rw [if_pos (Or.inr rfl)]

theorem authenticate_true_eq (s : String) (req : Request) (now : Nat) :
    authenticate true s req now =
      (if req.path = "/mcp/info" then AuthResult.allow
      else if (get_token_from_request req).getD "" = "" then
        AuthResult.deny 401 "Unauthorized: Missing Bearer Token"
      else if (validate_token
          (if "Bearer ".data.isPrefixOf ((get_token_from_request req).getD "").data then
            String.mk (pyReplaceOnce ((get_token_from_request req).getD "").data
              "Bearer ".data [])
          else (get_token_from_request req).getD "") s now).1 then AuthResult.allow
      else AuthResult.deny 401 "Unauthorized: Invalid Bearer Token") := rfl

theorem digitChar_mem_hex : ∀ d, d < 16 → Nat.digitChar d ∈ ("0123456789abcdef").data := by
  decide

theorem token_hex_length (r : List Nat) : (token_hex r).length = 2 * r.length := by
  show (r.flatMap fun b => [Nat.digitChar (b / 16 % 16), Nat.digitChar (b % 16)]).length
      = 2 * r.length
  induction r with
  | nil => rfl
  | cons b r ih =>
    rw [List.flatMap_cons]
    simp only [List.length_append, List.length_cons, List.length_nil, ih]
    omega

theorem token_hex_hexDigits (r : List Nat) :
    ∀ c ∈ (token_hex r).data, c ∈ ("0123456789abcdef").data := by
  show ∀ c ∈ r.flatMap fun b => [Nat.digitChar (b / 16 % 16), Nat.digitChar (b % 16)], _
  intro c hc
  obtain ⟨b, _, hcb⟩ := List.mem_flatMap.mp hc
  simp only [List.mem_cons, List.not_mem_nil, or_false] at hcb
  rcases hcb with h | h <;> subst h <;>
    exact digitChar_mem_hex _ (by omega)

/-! Claim theorems. -/

/-- C2: if the shared secret is empty or unset (a None secret behaves as
the empty string at the falsy guard), validate_token returns (false, none)
for every token string, including well-formed tokens signed with any key:
no externally supplied token ever validates against an empty secret. -/
theorem c2_empty_secret_never_validates (token : String) (now : Nat) :
    validate_token token "" now = (false, none) :=
  validate_token_empty_secret token now

/-- C7: the configured bypass path /mcp/info is always allowed by both the
auth-proxy gate and the main-server gate, for every header map (including
no Authorization header), every shared-secret value (including empty), and
whether or not authentication is enabled. -/
theorem c7_bypass_path_always_allowed (enabled : Bool) (secret : String)
    (hdrs : List (String × String)) (now : Nat) :
    authenticate enabled secret ⟨"/mcp/info", hdrs⟩ now = .allow ∧
    authenticate_request enabled secret ⟨"/mcp/info", hdrs⟩ now = (true, none) := by
  unfold authenticate authenticate_request
  cases enabled <;> simp

/-- C3 counterexample: extract_token_from_header uses a global str.replace,
so the double-prefixed header yields "xyz", not the "Bearer xyz" the claim
requires (the prefix is stripped twice, not exactly once). -/
theorem c3_double_prefix_counterexample :
    extract_token_from_header (some "Bearer Bearer xyz") = some "xyz" ∧
    extract_token_from_header (some "Bearer Bearer xyz") ≠ some "Bearer xyz" := by
  decide

/-- C3 amended: for every header value starting with "Bearer ",
extract_token_from_header removes EVERY occurrence of "Bearer " (Python
str.replace with no count), not exactly one; in particular
"Bearer Bearer xyz" yields "xyz". -/
theorem c3_extract_strips_globally (hdr : String)
    (hp : "Bearer ".data.isPrefixOf hdr.data = true) :
    extract_token_from_header (some hdr)
      = some (String.mk (pyReplace hdr.data "Bearer ".data [])) := by
  unfold extract_token_from_header
  have hcond : ¬(hdr = "" ∨ ¬("Bearer ".data.isPrefixOf hdr.data = true)) := by
    rintro (hemp | hnp)
    · rw [hemp] at hp
      exact absurd hp (by decide)
    · exact hnp hp
  show (if hdr = "" ∨ ¬("Bearer ".data.isPrefixOf hdr.data = true) then none
    else some (String.mk (pyReplace hdr.data "Bearer ".data []))) = _
  rw [if_neg hcond]

/-- C3 witness: the amended theorem applied to the header "Bearer abc". -/
theorem c3_extract_strips_globally_witness :
    extract_token_from_header (some "Bearer abc") = some "abc" := by
  have h := c3_extract_strips_globally "Bearer abc" (by decide)
  rw [h]
  decide

/-- C4 counterexample: three requests in three different 401 classes of
the spec (missing Authorization header; header present but not
Bearer-prefixed; empty token after prefix stripping) all receive the SAME
denial reason string, so the four classes are not pairwise distinguished. -/
theorem c4_reason_collision_counterexample :
    authenticate true "s3" ⟨"/tool", []⟩ 0
      = .deny 401 "Unauthorized: Missing Bearer Token" ∧
    authenticate true "s3" ⟨"/tool", [("Authorization", "Basic abc")]⟩ 0
      = .deny 401 "Unauthorized: Missing Bearer Token" ∧
    authenticate true "s3" ⟨"/tool", [("Authorization", "Bearer ")]⟩ 0
      = .deny 401 "Unauthorized: Missing Bearer Token" := by
  decide

/-- C4 amended: the gate emits only two distinct 401 reason strings:
"Unauthorized: Missing Bearer Token" for every request without a usable
bearer token (missing header, non-Bearer header, or empty token alike) and
"Unauthorized: Invalid Bearer Token" for tokens failing validation; those
two strings are distinct, but the four spec classes are not. -/
theorem c4_two_denial_reasons :
    (∀ (s : String) (req : Request) (now : Nat), req.path ≠ "/mcp/info" →
      authenticate true s req now = .allow ∨
      authenticate true s req now = .deny 401 "Unauthorized: Missing Bearer Token" ∨
      authenticate true s req now = .deny 401 "Unauthorized: Invalid Bearer Token") ∧
    ("Unauthorized: Missing Bearer Token" : String)
      ≠ "Unauthorized: Invalid Bearer Token" := by
  constructor
  · intro s req now hpath
    rw [authenticate_true_eq, if_neg hpath]
    by_cases ht : (get_token_from_request req).getD "" = ""
    · rw [if_pos ht]
      exact Or.inr (Or.inl rfl)
    · rw [if_neg ht]
      set T := (get_token_from_request req).getD "" with hT
      set X := if "Bearer ".data.isPrefixOf T.data then
          String.mk (pyReplaceOnce T.data "Bearer ".data []) else T with hX
      by_cases hv : (validate_token X s now).1 = true
      · rw [if_pos hv]
        exact Or.inl rfl
      · rw [if_neg hv]
        exact Or.inr (Or.inr rfl)
  · decide

/-- C4 witness: the amended characterization applied to a concrete request
with no Authorization header. -/
theorem c4_two_denial_reasons_witness :
    authenticate true "k" ⟨"/x", []⟩ 0 = .allow ∨
    authenticate true "k" ⟨"/x", []⟩ 0
      = .deny 401 "Unauthorized: Missing Bearer Token" ∨
    authenticate true "k" ⟨"/x", []⟩ 0
      = .deny 401 "Unauthorized: Invalid Bearer Token" :=
  c4_two_denial_reasons.1 "k" ⟨"/x", []⟩ 0 (by decide)

/-- C5 counterexample: with the shared secret empty at decision time, a
request bearing a token is denied with status 401 and the ordinary
invalid-credential message, not a distinct 500-class misconfiguration
signal. -/
theorem c5_misconfig_counterexample :
    authenticate true "" ⟨"/tool", [("Authorization", "Bearer abc")]⟩ 0
      = .deny 401 "Unauthorized: Invalid Bearer Token" := by
  decide

/-- C5 amended: when the shared secret is empty or unset, the gate always
denies requests that reach the credential check (it never allows), but it
reports them with the ordinary 401 reasons — the generic invalid-token
message when a token is present — rather than a distinct 500-class
misconfiguration signal. -/
theorem c5_empty_secret_always_denies (req : Request) (now : Nat)
    (hpath : req.path ≠ "/mcp/info") :
    authenticate true "" req now = .deny 401 "Unauthorized: Missing Bearer Token" ∨
    authenticate true "" req now = .deny 401 "Unauthorized: Invalid Bearer Token" := by
  rw [authenticate_true_eq, if_neg hpath]
  by_cases ht : (get_token_from_request req).getD "" = ""
  · rw [if_pos ht]
    exact Or.inl rfl
  · rw [if_neg ht]
    set T := (get_token_from_request req).getD "" with hT
    set X := if "Bearer ".data.isPrefixOf T.data then
        String.mk (pyReplaceOnce T.data "Bearer ".data []) else T with hX
    have hv : (validate_token X "" now).1 = false := by
      rw [validate_token_empty_secret]
    rw [if_neg (by rw [hv]; exact Bool.false_ne_true)]
    exact Or.inr rfl

/-- C5 witness: the amended theorem applied to a concrete request carrying
a bearer token. -/
theorem c5_empty_secret_always_denies_witness :
    authenticate true "" ⟨"/tool2", [("Authorization", "Bearer abc")]⟩ 0
      = .deny 401 "Unauthorized: Missing Bearer Token" ∨
    authenticate true "" ⟨"/tool2", [("Authorization", "Bearer abc")]⟩ 0
      = .deny 401 "Unauthorized: Invalid Bearer Token" :=
  c5_empty_secret_always_denies ⟨"/tool2", [("Authorization", "Bearer abc")]⟩ 0 (by decide)

/-- C1 counterexample: the round trip fails for the claims mapping
c = [("exp", 0)]: the caller-supplied exp lands in the payload, the token
is already expired at generation time 1, and validation returns
(false, none) instead of (true, payload). -/
theorem c1_roundtrip_counterexample :
    validate_token
      ((generate_token "k" none none (some [("exp", JVal.jint 0)]) 1 []).toOption.getD "")
      "k" 1 = (false, none) := by
  have hg : generate_token "k" none none (some [("exp", JVal.jint 0)]) 1 []
      = .ok ((generate_token "k" none none
          (some [("exp", JVal.jint 0)]) 1 []).toOption.getD "") := rfl
  rw [validate_generate "k" none none (some [("exp", JVal.jint 0)]) 1 1 [] _
      (by decide) hg]
  have hexp : dictGet (tokenPayload none none (some [("exp", JVal.jint 0)]) 1 []) "exp"
      = some (JVal.jint 0) := by decide
  rw [hexp]
  show (if (0 : Int) < ((1 : Nat) : Int) then ((false : Bool), (none : Option JObj))
    else (true, some (tokenPayload none none (some [("exp", JVal.jint 0)]) 1 [])))
    = (false, none)
  rw [if_pos (by norm_num)]

/-- C1 amended: for every non-empty secret, every non-negative (or absent)
requested expiry, and every claims mapping c with distinct keys avoiding
iat, jti and exp, validating the generated token with the same secret at
generation time returns (true, payload) where the payload contains every
pair of c together with the injected iat and jti, and exp when a non-zero
expiry was requested. -/
theorem c1_roundtrip (secret : String) (uid : Option String) (e : Option Int)
    (c : JObj) (now : Nat) (rand16 : List Nat) (tok : String)
    (hs : secret ≠ "")
    (he : ∀ x ∈ e, 0 ≤ x)
    (hck : (dictKeys c).Nodup)
    (hiat : "iat" ∉ dictKeys c) (hjti : "jti" ∉ dictKeys c) (hexp : "exp" ∉ dictKeys c)
    (hg : generate_token secret uid e (some c) now rand16 = .ok tok) :
    validate_token tok secret now
      = (true, some (tokenPayload uid e (some c) now rand16)) ∧
    (∀ kv ∈ c, dictGet (tokenPayload uid e (some c) now rand16) kv.1 = some kv.2) ∧
    dictGet (tokenPayload uid e (some c) now rand16) "iat"
      = some (.jint (now : Int)) ∧
    dictGet (tokenPayload uid e (some c) now rand16) "jti"
      = some (.jstr (token_hex rand16)) ∧
    (∀ x ∈ e, x ≠ 0 →
      dictGet (tokenPayload uid e (some c) now rand16) "exp"
        = some (.jint ((now : Int) + x))) := by
  have hmaster := validate_generate secret uid e (some c) now now rand16 tok hs hg
  have hupd : ∀ k, k ∉ dictKeys c →
      dictGet (tokenPayload uid e (some c) now rand16) k
        = dictGet (tokenPayload uid e none now rand16) k := by
    intro k hk
    exact tokenPayload_get_update_notMem uid e (some c) now rand16 k hk
  refine ⟨?_, ?_, ?_, ?_, ?_⟩
  · rw [hmaster]
    rcases e with _ | x
    · rw [hupd "exp" hexp, (tokenPayload_none_get_iat uid none now rand16).2.2.1]
    · by_cases hx : x = 0
      · subst hx
        rw [hupd "exp" hexp, tokenPayload_none_get_exp_zero]
      · rw [hupd "exp" hexp, tokenPayload_none_get_exp_some uid x now rand16 hx]
        show (if (now : Int) + x < (now : Int) then ((false : Bool), (none : Option JObj))
          else (true, some (tokenPayload uid (some x) (some c) now rand16)))
          = (true, some (tokenPayload uid (some x) (some c) now rand16))
        rw [if_neg (by
          have hx0 : (0 : Int) ≤ x := he x (by simp)
          omega)]
  · intro kv hkv
    exact tokenPayload_get_mem uid e now rand16 c kv.1 kv.2 hck hkv
  · rw [hupd "iat" hiat, (tokenPayload_none_get_iat uid e now rand16).2.2.2.1]
  · rw [hupd "jti" hjti, (tokenPayload_none_get_iat uid e now rand16).2.2.2.2]
  · intro x hx hx0
    rcases e with _ | y
    · simp at hx
    · have hxy : y = x := by simpa using hx
      rw [hupd "exp" hexp, hxy, tokenPayload_none_get_exp_some uid x now rand16 hx0]

/-- C1 witness: the amended round trip at secret "k", subject "alice",
expiry 60, claims mapping containing the single entry role = admin. -/
theorem c1_roundtrip_witness :
    validate_token ((generate_token "k" (some "alice") (some 60)
        (some [("role", JVal.jstr "admin")]) 7 []).toOption.getD "") "k" 7
      = (true, some (tokenPayload (some "alice") (some 60)
          (some [("role", JVal.jstr "admin")]) 7 [])) ∧
    dictGet (tokenPayload (some "alice") (some 60)
        (some [("role", JVal.jstr "admin")]) 7 []) "role"
      = some (JVal.jstr "admin") := by
  have h := c1_roundtrip "k" (some "alice") (some 60) [("role", JVal.jstr "admin")] 7 [] _
    (by decide) (by intro x hx; simp at hx; omega) (by decide) (by decide) (by decide)
    (by decide) rfl
  exact ⟨h.1, h.2.1 ("role", JVal.jstr "admin") (by simp)⟩

/-- C6: a token generated with expiry_seconds = -1 is rejected at its own
generation time; one generated with expiry_seconds = 3600 validates at the
generation time and is rejected once the clock passes generation + 3600. -/
theorem c6_expiry (secret : String) (uid : Option String) (ad : Option JObj)
    (now : Nat) (r : List Nat) (t1 t2 : String)
    (hs : secret ≠ "")
    (hexp : "exp" ∉ dictKeys (ad.getD []))
    (hg1 : generate_token secret uid (some (-1)) ad now r = .ok t1)
    (hg2 : generate_token secret uid (some 3600) ad now r = .ok t2) :
    validate_token t1 secret now = (false, none) ∧
    validate_token t2 secret now
      = (true, some (tokenPayload uid (some 3600) ad now r)) ∧
    (∀ t : Nat, now + 3600 < t → validate_token t2 secret t = (false, none)) := by
  have hupd1 := tokenPayload_get_update_notMem uid (some (-1)) ad now r "exp" hexp
  have hupd2 := tokenPayload_get_update_notMem uid (some 3600) ad now r "exp" hexp
  refine ⟨?_, ?_, ?_⟩
  · rw [validate_generate secret uid (some (-1)) ad now now r t1 hs hg1]
    rw [hupd1, tokenPayload_none_get_exp_some uid (-1) now r (by norm_num)]
    show (if (now : Int) + (-1) < (now : Int) then ((false : Bool), (none : Option JObj))
      else (true, some (tokenPayload uid (some (-1)) ad now r))) = (false, none)
    rw [if_pos (by omega)]
  · rw [validate_generate secret uid (some 3600) ad now now r t2 hs hg2]
    rw [hupd2, tokenPayload_none_get_exp_some uid 3600 now r (by norm_num)]
    show (if (now : Int) + 3600 < (now : Int) then ((false : Bool), (none : Option JObj))
      else (true, some (tokenPayload uid (some 3600) ad now r)))
      = (true, some (tokenPayload uid (some 3600) ad now r))
    rw [if_neg (by omega)]
  · intro t ht
    rw [validate_generate secret uid (some 3600) ad now t r t2 hs hg2]
    rw [hupd2, tokenPayload_none_get_exp_some uid 3600 now r (by norm_num)]
    show (if (now : Int) + 3600 < (t : Int) then ((false : Bool), (none : Option JObj))
      else (true, some (tokenPayload uid (some 3600) ad now r))) = (false, none)
    rw [if_pos (by omega)]

/-- C6 witness: the expiry behavior at secret "s", generation time 5,
validated at times 5 and 3606. -/
theorem c6_expiry_witness :
    validate_token ((generate_token "s" none (some (-1)) none 5 []).toOption.getD "")
      "s" 5 = (false, none) ∧
    validate_token ((generate_token "s" none (some 3600) none 5 []).toOption.getD "")
      "s" 5 = (true, some (tokenPayload none (some 3600) none 5 [])) ∧
    validate_token ((generate_token "s" none (some 3600) none 5 []).toOption.getD "")
      "s" 3606 = (false, none) := by
  have h := c6_expiry "s" none none 5 [] _ _ (by decide) (by decide) rfl rfl
  exact ⟨h.1, h.2.1, h.2.2 3606 (by norm_num)⟩

/-- C10: generate_token with expiry_seconds = 0 treats zero like an absent
expiry: the payload carries no exp field at all and the token validates at
every later time. -/
theorem c10_zero_expiry_never_expires (secret : String) (uid : Option String)
    (ad : Option JObj) (now : Nat) (r : List Nat) (tok : String) (t : Nat)
    (hs : secret ≠ "")
    (hexp : "exp" ∉ dictKeys (ad.getD []))
    (hg : generate_token secret uid (some 0) ad now r = .ok tok) :
    dictGet (tokenPayload uid (some 0) ad now r) "exp" = none ∧
    validate_token tok secret t = (true, some (tokenPayload uid (some 0) ad now r)) := by
  have hnone : dictGet (tokenPayload uid (some 0) ad now r) "exp" = none := by
    rw [tokenPayload_get_update_notMem uid (some 0) ad now r "exp" hexp,
        tokenPayload_none_get_exp_zero]
  refine ⟨hnone, ?_⟩
  rw [validate_generate secret uid (some 0) ad now t r tok hs hg, hnone]

/-- C10 witness: a zero-expiry token generated at time 1 still validates
at time 99999999. -/
theorem c10_zero_expiry_witness :
    validate_token ((generate_token "s" none (some 0) none 1 []).toOption.getD "")
      "s" 99999999 = (true, some (tokenPayload none (some 0) none 1 [])) :=
  (c10_zero_expiry_never_expires "s" none none 1 [] _ 99999999
    (by decide) (by decide) rfl).2

/-- C8 counterexample: generate_token merges additional_data AFTER
injecting iat and jti, so a caller-supplied iat survives: with the clock
at 5 and additional_data binding iat to 0, the payload carries iat = 0,
not the freshly read time 5 — caller-supplied iat IS honored. -/
theorem c8_caller_iat_counterexample :
    dictGet (tokenPayload none none (some [("iat", JVal.jint 0)]) 5 []) "iat"
      = some (JVal.jint 0) ∧
    dictGet (tokenPayload none none (some [("iat", JVal.jint 0)]) 5 []) "iat"
      ≠ some (JVal.jint 5) := by
  decide

/-- C8 amended: generate_token injects iat = current time and jti = the
hex encoding of the 16 random bytes (32 lowercase hex characters) BEFORE
merging additional_data; the payload therefore carries the fresh values
whenever additional_data avoids those keys, but a caller-supplied iat
overwrites the fresh one when the keys collide. -/
theorem c8_fresh_iat_jti (uid : Option String) (e : Option Int) (ad : Option JObj)
    (now : Nat) (r : List Nat) :
    ("iat" ∉ dictKeys (ad.getD []) →
      dictGet (tokenPayload uid e ad now r) "iat" = some (.jint (now : Int))) ∧
    ("jti" ∉ dictKeys (ad.getD []) →
      dictGet (tokenPayload uid e ad now r) "jti" = some (.jstr (token_hex r))) ∧
    (r.length = 16 → (token_hex r).length = 32) ∧
    (∀ c ∈ (token_hex r).data, c ∈ ("0123456789abcdef").data) ∧
    (∀ a v, (dictKeys a).Nodup → ("iat", v) ∈ a →
      dictGet (tokenPayload uid e (some a) now r) "iat" = some v) := by
  refine ⟨?_, ?_, ?_, token_hex_hexDigits r, ?_⟩
  · intro h
    rw [tokenPayload_get_update_notMem uid e ad now r "iat" h,
        (tokenPayload_none_get_iat uid e now r).2.2.2.1]
  · intro h
    rw [tokenPayload_get_update_notMem uid e ad now r "jti" h,
        (tokenPayload_none_get_iat uid e now r).2.2.2.2]
  · intro h
    rw [token_hex_length, h]
  · intro a v hnd hmem
    exact tokenPayload_get_mem uid e now r a "iat" v hnd hmem

/-- C8 witness: the amended theorem at time 3 with a 16-byte random value
and a one-entry additional_data that avoids iat and jti. -/
theorem c8_fresh_iat_jti_witness :
    dictGet (tokenPayload none none (some [("role", JVal.jstr "x")]) 3
        [0, 17, 34, 51, 68, 85, 102, 119, 136, 153, 170, 187, 204, 221, 238, 255]) "iat"
      = some (JVal.jint 3) ∧
    (token_hex
        [0, 17, 34, 51, 68, 85, 102, 119, 136, 153, 170, 187, 204, 221, 238, 255]).length
      = 32 :=
  ⟨(c8_fresh_iat_jti none none (some [("role", JVal.jstr "x")]) 3 _).1 (by decide),
    (c8_fresh_iat_jti none none (some [("role", JVal.jstr "x")]) 3 _).2.2.1 (by decide)⟩

/-- C9: validate_token is total and never raises: every call returns
either (true, payload) or (false, none); in particular it returns
(false, none) when the token or secret is empty, when the token does not
split into exactly two dot-separated parts, on signature mismatch, and on
payload decode or parse failure after a signature match. -/
theorem c9_validate_total (token secret : String) (now : Nat) :
    (validate_token token secret now = (false, none) ∨
      ∃ payload, validate_token token secret now = (true, some payload)) ∧
    (token = "" ∨ secret = "" → validate_token token secret now = (false, none)) ∧
    ((pySplitDot token.data).length ≠ 2 →
      validate_token token secret now = (false, none)) ∧
    (∀ pc sc, pySplitDot token.data = [pc, sc] →
      String.mk sc ≠ signPayload secret (String.mk pc) →
      validate_token token secret now = (false, none)) ∧
    (∀ pc sc, pySplitDot token.data = [pc, sc] →
      decodePayload (String.mk pc) = none →
      validate_token token secret now = (false, none)) := by
  refine ⟨?_, ?_, ?_, ?_, ?_⟩
  · unfold validate_token
    by_cases hg : token = "" ∨ secret = ""
    · rw [if_pos hg]
      exact Or.inl rfl
    · rw [if_neg hg]
      split
      · dsimp only
        split
        · exact Or.inl rfl
        · split
          · exact Or.inl rfl
          · split
            · split
              · exact Or.inl rfl
              · exact Or.inr ⟨_, rfl⟩
            · exact Or.inl rfl
            · exact Or.inr ⟨_, rfl⟩
      · exact Or.inl rfl
  · intro h
    unfold validate_token
    rw [if_pos h]
  · intro h
    unfold validate_token
    by_cases hg : token = "" ∨ secret = ""
    · rw [if_pos hg]
    · rw [if_neg hg]
      split
      · rename_i pc' sc' heq
        rw [heq] at h
        simp at h
      · rfl
  · intro pc sc hsplit hne
    unfold validate_token
    by_cases hg : token = "" ∨ secret = ""
    · rw [if_pos hg]
    · rw [if_neg hg]
      split
      · rename_i pc' sc' heq
        rw [hsplit] at heq
        injection heq with h1 h2
        injection h2 with h2 _
        subst h1
        subst h2
        dsimp only
        rw [if_pos hne]
      · rename_i hni
        exact absurd hsplit (hni pc sc)
  · intro pc sc hsplit hdec
    unfold validate_token
    by_cases hg : token = "" ∨ secret = ""
    · rw [if_pos hg]
    · rw [if_neg hg]
      split
      · rename_i pc' sc' heq
        rw [hsplit] at heq
        injection heq with h1 h2
        injection h2 with h2 _
        subst h1
        subst h2
        dsimp only
        by_cases hsig : String.mk sc ≠ signPayload secret (String.mk pc)
        · rw [if_pos hsig]
        · rw [if_neg hsig, hdec]
      · rename_i hni
        exact absurd hsplit (hni pc sc)

/-- C9 witness: the empty-input case of the totality theorem. -/
theorem c9_validate_total_witness : validate_token "" "" 0 = (false, none) :=
  (c9_validate_total "" "" 0).2.1 (Or.inl rfl)
